import Mathlib

/-!
Verification of the SQL-to-Prisma conversion pipeline
(`src/services/sql-parser.ts`, `src/services/prisma-generator.ts`).

The TypeScript sources are shallowly embedded: strings are Lean `String`
(character lists), JavaScript string primitives (`toLowerCase`, `endsWith`,
`split`, `includes`, template literals, decimal rendering of numbers) are
re-implemented over `String.data` with ASCII semantics, and the mutable
per-document state of the generator (the used-relation-name set and the
in-place model mutation) is threaded explicitly through folds.
-/

/-! ## JavaScript string primitives (ASCII semantics) -/

/-- ASCII lower-casing of one character, as JS `toLowerCase` acts on ASCII. -/
def lcChar (c : Char) : Char :=
  if 'A' ≤ c && c ≤ 'Z' then Char.ofNat (c.toNat + 32) else c

/-- ASCII upper-casing of one character, as JS `toUpperCase` acts on ASCII. -/
def ucChar (c : Char) : Char :=
  if 'a' ≤ c && c ≤ 'z' then Char.ofNat (c.toNat - 32) else c

/-- JS `String.prototype.toLowerCase` (ASCII fragment). -/
def lowerStr (s : String) : String := ⟨s.data.map lcChar⟩

/-- JS `String.prototype.toUpperCase` (ASCII fragment). -/
def upperStr (s : String) : String := ⟨s.data.map ucChar⟩

/-- JS `s.endsWith(t)`. -/
def endsWithStr (s t : String) : Bool := t.data.isSuffixOf s.data

/-- JS `s.includes(t)` (substring test). -/
def includesAux (p : List Char) : List Char → Bool
  | [] => p.isEmpty
  | c :: t => p.isPrefixOf (c :: t) || includesAux p t

/-- JS `s.includes(t)`. -/
def includesStr (s t : String) : Bool := includesAux t.data s.data

/-- JS whitespace class `\s` (the characters relevant to this pipeline). -/
def isSpaceChar (c : Char) : Bool :=
  c = ' ' || c = '\t' || c = '\n' || c = '\r' || c = '\x0b' || c = '\x0c'

/-- JS word-character class `\w` = `[A-Za-z0-9_]`. -/
def isWordChar (c : Char) : Bool :=
  ('a' ≤ c && c ≤ 'z') || ('A' ≤ c && c ≤ 'Z') || ('0' ≤ c && c ≤ '9') || c = '_'

/-- JS `s.trim()`: strip leading and trailing whitespace. -/
def trimStr (s : String) : String :=
  ⟨((s.data.dropWhile isSpaceChar).reverse.dropWhile isSpaceChar).reverse⟩

/-- Decimal digits of a natural number, most significant first
    (the digit sequence produced by JS number-to-string conversion). -/
def decDigits (n : Nat) : List Nat :=
  if _h : n < 10 then [n] else decDigits (n / 10) ++ [n % 10]
  decreasing_by exact Nat.div_lt_self (by omega) (by omega)

/-- A decimal digit as a character. -/
def digitChar (d : Nat) : Char := Char.ofNat (48 + d)

/-- JS template-literal rendering of a natural number (decimal). -/
def natToStr (n : Nat) : String := ⟨(decDigits n).map digitChar⟩

/-! ## Intermediate representation (`src/types`, `SQL*` interfaces) -/

/-- The tag of a table constraint (`SQLConstraint.type` in the source). -/
inductive ConstraintTag where
  | primaryKey
  | foreignKey
  | unique
  | check
  deriving DecidableEq, Repr

/-- `SQLColumn` from `src/types`. -/
structure SQLColumn where
  name : String
  type : String
  nullable : Bool
  defaultValue : Option String := none
  isPrimaryKey : Bool := false
  isUnique : Bool := false
  length : Option Nat := none
  isEnum : Bool := false
  comment : Option String := none
  deriving DecidableEq, Repr

/-- `SQLConstraint` from `src/types`. -/
structure SQLConstraint where
  tag : ConstraintTag
  columns : List String
  referencedTable : Option String := none
  referencedColumns : Option (List String) := none
  deriving DecidableEq, Repr

/-- `SQLIndex` from `src/types`. -/
structure SQLIndex where
  name : Option String := none
  columns : List String
  unique : Bool
  usingMethod : Option String := none
  deriving DecidableEq, Repr

/-- `SQLTable` from `src/types`. -/
structure SQLTable where
  name : String
  columns : List SQLColumn
  constraints : List SQLConstraint
  indexes : List SQLIndex := []
  comment : Option String := none
  deriving DecidableEq, Repr

/-- `SQLEnum` from `src/types`. -/
structure SQLEnum where
  name : String
  values : List String
  deriving DecidableEq, Repr

/-- `PrismaField` from `src/types`. -/
structure PrismaField where
  name : String
  type : String
  attributes : List String
  isOptional : Bool
  isArray : Bool
  comment : Option String := none
  deriving DecidableEq, Repr

/-- `PrismaModel` from `src/types`. -/
structure PrismaModel where
  name : String
  fields : List PrismaField
  attributes : List String
  comment : Option String := none
  deriving DecidableEq, Repr

/-- `PrismaEnum` from `src/types`. -/
structure PrismaEnum where
  name : String
  values : List String
  deriving DecidableEq, Repr

/-! ## `PrismaGenerator.pluralize` -/

/-- `PrismaGenerator.pluralize`.  The regex test `/[aeiou]y$/` on the
    lower-cased word is expanded into the five suffix checks. -/
def pluralize (word : String) : String :=
  let lower := lowerStr word
  if endsWithStr lower "s" then word
  else if endsWithStr lower "sh" || endsWithStr lower "ch" ||
          endsWithStr lower "x" || endsWithStr lower "z" then word ++ "es"
  else if endsWithStr lower "y" &&
          !(endsWithStr lower "ay" || endsWithStr lower "ey" ||
            endsWithStr lower "iy" || endsWithStr lower "oy" ||
            endsWithStr lower "uy") then ⟨word.data.dropLast⟩ ++ "ies"
  else word ++ "s"

/-! ## Case conversion (`toPascalCase`, `toCamelCase`) -/

/-- JS `str.split("_")` on the character list: splits at every underscore,
    preserving empty pieces (`"".split("_")` is `[""]`). -/
def splitUnderscore : List Char → List (List Char)
  | [] => [[]]
  | c :: t =>
    match splitUnderscore t with
    | [] => [[c]]
    | h :: rest => if c = '_' then [] :: h :: rest else (c :: h) :: rest

/-- One word of `toPascalCase`:
    `word.charAt(0).toUpperCase() + word.slice(1).toLowerCase()`. -/
def capWord : List Char → List Char
  | [] => []
  | c :: t => ucChar c :: t.map lcChar

/-- `PrismaGenerator.toPascalCase`. -/
def toPascalCase (s : String) : String :=
  ⟨((splitUnderscore s.data).map capWord).flatten⟩

/-- Lower-case the first character
    (`pascal.charAt(0).toLowerCase() + pascal.slice(1)`). -/
def lcFirst : List Char → List Char
  | [] => []
  | c :: t => lcChar c :: t

/-- `PrismaGenerator.toCamelCase`. -/
def toCamelCase (s : String) : String := ⟨lcFirst (toPascalCase s).data⟩

/-- JS `fkColumn.replace(/_id$/i, "")`: drop a trailing `_id`
    (case-insensitive), if present. -/
def stripIdSuffix (s : String) : String :=
  if endsWithStr (lowerStr s) "_id" then ⟨s.data.take (s.data.length - 3)⟩ else s

/-! ## Naming-column selection and foreign-key context -/

/-- First index of a referenced column whose lower-casing is `id`
    (JS `Array.prototype.findIndex`). -/
def findIdIdx : List String → Option Nat
  | [] => none
  | c :: t =>
    if lowerStr c = "id" then some 0
    else match findIdIdx t with
      | some i => some (i + 1)
      | none => none

/-- `PrismaGenerator.selectNamingColumn`.  In the source, a missing
    `referencedColumns` (JS `undefined`) also selects `columns[0]`. -/
def selectNamingColumn (c : SQLConstraint) : String :=
  if c.referencedColumns.isNone || c.columns.length == 1 then c.columns.headD ""
  else
    match c.referencedColumns with
    | none => c.columns.headD ""
    | some rcs =>
      match findIdIdx rcs with
      | some i => if i < c.columns.length then c.columns.getD i "" else c.columns.getLastD ""
      | none => c.columns.getLastD ""

/-- `PrismaGenerator.extractForeignKeyContext`: strip `_id`, split on
    underscores, drop empty pieces, rejoin with underscores. -/
def extractForeignKeyContext (fkColumn : String) : String :=
  let cleaned := stripIdSuffix fkColumn
  let parts := (splitUnderscore cleaned.data).filter (fun p => !p.isEmpty)
  match parts with
  | [p] => ⟨p⟩
  | ps => ⟨(ps.intersperse ['_']).flatten⟩

/-- `PrismaGenerator.shouldIncludeContext`. -/
def shouldIncludeContext (fkContext tableName : String) : Bool :=
  !(lowerStr fkContext = "id" || lowerStr fkContext = lowerStr tableName)

/-- `PrismaGenerator.extractRelationFieldName`. -/
def extractRelationFieldName (fkColumn targetTable : String) : String :=
  if lowerStr fkColumn = "id" then toCamelCase targetTable
  else
    let columnBase := stripIdSuffix fkColumn
    if lowerStr columnBase = lowerStr targetTable then toCamelCase targetTable
    else toCamelCase columnBase

/-! ## Decimal rendering facts (for the numeric-suffix fallbacks) -/

/-- Value of a most-significant-first decimal digit list. -/
def decVal (l : List Nat) : Nat := l.foldl (fun a d => 10 * a + d) 0

/-! ## `PrismaGenerator.ensureUniqueFieldName` -/

/-- The numeric-suffix loop at the end of `ensureUniqueFieldName`
    (`while existingNames.has(uniqueName) { counter++ }`), embedded with
    explicit fuel; the fuel `existingNames.length + 1` is always enough,
    because that many distinct candidates cannot all be taken. -/
def suffixLoop (base : String) (ex : List String) : Nat → Nat → String
  | 0, k => base ++ natToStr k
  | fuel + 1, k =>
    if base ++ natToStr k ∈ ex then suffixLoop base ex fuel (k + 1)
    else base ++ natToStr k

/-- `PrismaGenerator.ensureUniqueFieldName`: the five-stage cascade with a
    numeric-counter fallback, each stage tested against the target model's
    current field names. -/
def ensureUniqueFieldName (baseName : String) (model : PrismaModel)
    (fkColumn : String) (sourceTable : String) : String :=
  let existingNames := model.fields.map (fun f => f.name)
  if baseName ∉ existingNames then baseName
  else
    let fullContext := toCamelCase (stripIdSuffix fkColumn)
    if fullContext ≠ baseName ∧ fullContext ∉ existingNames then fullContext
    else
      let withSource := toCamelCase sourceTable ++ toPascalCase baseName
      if withSource ∉ existingNames then withSource
      else
        let fullColumnName := toCamelCase fkColumn
        if fullColumnName ∉ existingNames then fullColumnName
        else
          let lastResort := toCamelCase (sourceTable ++ "_" ++ stripIdSuffix fkColumn)
          if lastResort ∉ existingNames then lastResort
          else suffixLoop lastResort existingNames (existingNames.length + 1) 2

/-! ## Scalar field conversion (`convertColumnToField`) -/

/-- JS `!isNaN(Number(s))` on the decimal-literal forms that appear as SQL
    defaults: optional sign, digits with optional fraction, optional
    exponent; the empty (trimmed) string converts to `0`, hence is numeric. -/
def allDigitChars (l : List Char) : Bool :=
  !l.isEmpty && l.all (fun c => '0' ≤ c && c ≤ '9')

/-- Drop one optional leading sign. -/
def dropSign (l : List Char) : List Char :=
  match l with
  | c :: r => if c = '+' || c = '-' then r else l
  | [] => l

/-- Mantissa check: `digits`, `digits.digits`, `digits.`, or `.digits`. -/
def mantissaOk (l : List Char) : Bool :=
  match l.splitOn '.' with
  | [a] => allDigitChars a
  | [a, b] => (allDigitChars a && (b.isEmpty || allDigitChars b)) ||
      (a.isEmpty && allDigitChars b)
  | _ => false

/-- JS `!isNaN(Number(s))` (decimal fragment). -/
def jsIsNumeric (s : String) : Bool :=
  let t := (trimStr s).data
  if t.isEmpty then true
  else
    match (dropSign t).map lcChar |>.splitOn 'e' with
    | [m] => mantissaOk m
    | [m, ex] => mantissaOk m && allDigitChars (dropSign ex)
    | _ => false

/-- JS `defaultValue.replace(/^\(|\)$/g, "")`: drop one leading `(` and one
    trailing `)`, each independently if present. -/
def stripOuterParens (s : String) : String :=
  let d1 := match s.data with
    | '(' :: r => r
    | l => l
  if d1.getLast? = some ')' then ⟨d1.dropLast⟩ else ⟨d1⟩

/-- `PrismaGenerator.mapSQLTypeToPrismaType`. -/
def mapSQLTypeToPrismaType (sqlType : String) (enums : List PrismaEnum) : String :=
  let expectedEnumName := toPascalCase sqlType
  match enums.find? (fun e => e.name == expectedEnumName) with
  | some e => e.name
  | none =>
    let t := upperStr sqlType
    if t = "SERIAL" || t = "BIGSERIAL" || t = "INTEGER" || t = "INT" || t = "BIGINT" then
      "Int"
    else if t = "VARCHAR" || t = "TEXT" || t = "CHAR" then "String"
    else if t = "BOOLEAN" || t = "BOOL" then "Boolean"
    else if t = "TIMESTAMP" || t = "TIMESTAMPTZ" || t = "DATE" || t = "TIME" then
      "DateTime"
    else if t = "DECIMAL" || t = "NUMERIC" || t = "FLOAT" || t = "DOUBLE" || t = "REAL" then
      "Float"
    else if t = "UUID" then "String"
    else if t = "JSON" || t = "JSONB" then "Json"
    else "String"

/-- The `@id` attribute block of `convertColumnToField`. -/
def pkAttrs (column : SQLColumn) : List String :=
  if column.isPrimaryKey then
    [if column.type = "SERIAL" || column.type = "BIGSERIAL" then
      "@id @default(autoincrement())"
     else if column.type = "UUID" &&
        (match column.defaultValue with
         | some dv => includesStr dv "gen_random_uuid"
         | none => false) then
      "@id @default(dbgenerated(\"gen_random_uuid()\"))"
     else "@id"]
  else []

/-- The `@unique` attribute block of `convertColumnToField`. -/
def uniqueAttrs (column : SQLColumn) : List String :=
  if column.isUnique && !column.isPrimaryKey then ["@unique"] else []

/-- The `@default` attribute block of `convertColumnToField`. -/
def defaultAttrs (column : SQLColumn) : List String :=
  match column.defaultValue with
  | none => []
  | some dv =>
    if dv.isEmpty || column.isPrimaryKey then []
    else
      let upperDefault := upperStr dv
      if upperDefault = "CURRENT_TIMESTAMP" || upperDefault = "NOW()" ||
          upperDefault = "(NOW())" then ["@default(now())"]
      else if includesStr dv "gen_random_uuid" then
        ["@default(" ++ "dbgenerated(\"gen_random_uuid()\"))"]
      else if dv = "true" || dv = "false" then ["@default(" ++ (dv ++ ")")]
      else if jsIsNumeric dv then ["@default(" ++ (dv ++ ")")]
      else if includesStr upperDefault "NOW()" ||
          includesStr upperDefault "CURRENT_TIMESTAMP" then ["@default(now())"]
      else if includesStr dv "::json" || includesStr dv "::jsonb" then
        ["@default(" ++ ("dbgenerated(\"" ++ stripOuterParens dv ++ "\"))")]
      else ["@default(" ++ ("\"" ++ dv ++ "\")")]

/-- The `@updatedAt` attribute block of `convertColumnToField`. -/
def updatedAtAttrs (column : SQLColumn) : List String :=
  if includesStr column.type "TIMESTAMP" && includesStr (lowerStr column.name) "updated"
  then ["@updatedAt"] else []

/-- The `@map` attribute block of `convertColumnToField`. -/
def mapAttrs (column : SQLColumn) : List String :=
  if column.name ≠ toCamelCase column.name then ["@map(\"" ++ (column.name ++ "\")")]
  else []

/-- The `@db.*` attribute blocks of `convertColumnToField`. -/
def dbAttrs (column : SQLColumn) : List String :=
  (if column.type = "UUID" then ["@db.Uuid"] else []) ++
  (if column.type = "JSONB" then ["@db.JsonB"]
   else if column.type = "JSON" then ["@db.Json"] else [])

/-- `PrismaGenerator.convertColumnToField` (the `_table` parameter of the
    source is unused there and omitted here). -/
def convertColumnToField (column : SQLColumn) (enums : List PrismaEnum) : PrismaField :=
  { name := toCamelCase column.name
    type := mapSQLTypeToPrismaType column.type (if column.isEnum then enums else [])
    attributes := pkAttrs column ++ uniqueAttrs column ++ defaultAttrs column ++
      updatedAtAttrs column ++ mapAttrs column ++ dbAttrs column
    isOptional := column.nullable && !column.isPrimaryKey
    isArray := false
    comment := column.comment }

/-! ## Relation fields (`createRelationField`, `isRelationOptional`) -/

/-- `PrismaGenerator.isRelationOptional`: true iff some owning-side column of
    the constraint resolves (by first name match) to a nullable column. -/
def isRelationOptional (c : SQLConstraint) (table : SQLTable) : Bool :=
  c.columns.any (fun colName =>
    match table.columns.find? (fun col => col.name == colName) with
    | some col => col.nullable
    | none => false)

/-- JS `array.join(", ")`. -/
def joinComma (l : List String) : String := String.intercalate ", " l

/-- `PrismaGenerator.createRelationField`.  The falsy guards on
    `referencedTable` / `referencedColumns` / `columns.length` become the
    `Option` matches and the emptiness test. -/
def createRelationField (c : SQLConstraint) (table : SQLTable)
    (relationName : String) (model : PrismaModel) (namingColumn : String) :
    Option PrismaField :=
  match c.referencedTable, c.referencedColumns with
  | some rt, some rcs =>
    if c.columns.isEmpty then none
    else
      some { name := ensureUniqueFieldName (extractRelationFieldName namingColumn rt)
               model namingColumn table.name
             type := toPascalCase rt
             attributes := ["@relation(\"" ++ (relationName ++ ("\", fields: [" ++
               (joinComma (c.columns.map toCamelCase) ++ ("], references: [" ++
               (joinComma (rcs.map toCamelCase) ++ "])")))))]
             isOptional := isRelationOptional c table
             isArray := false }
  | _, _ => none

/-- Concrete data for witnesses: a nullable `author_id` column. -/
def egAuthorCol : SQLColumn :=
  { name := "author_id", type := "INTEGER", nullable := true }

/-- Concrete data for witnesses: `posts.author_id` referencing `users(id)`. -/
def egAuthorFK : SQLConstraint :=
  { tag := ConstraintTag.foreignKey, columns := ["author_id"],
    referencedTable := some "users", referencedColumns := some ["id"] }

/-- Concrete data for witnesses: a `posts` table with one nullable column. -/
def egPostsTable : SQLTable :=
  { name := "posts", columns := [egAuthorCol], constraints := [egAuthorFK] }

/-- Concrete data for witnesses: an empty `Posts` model. -/
def egPostsModel : PrismaModel :=
  { name := "Posts", fields := [], attributes := [] }

/-! ## Back-relations, relation names, and the two-pass model construction -/

/-- `PrismaGenerator.createBackRelationField`. -/
def createBackRelationField (c : SQLConstraint) (table : SQLTable)
    (relationName : String) (referencedModel : PrismaModel) (namingColumn : String) :
    Option PrismaField :=
  match c.referencedTable with
  | none => none
  | some _ =>
    if c.columns.isEmpty then none
    else
      let fkContext := extractForeignKeyContext namingColumn
      let baseBackName := pluralize (toCamelCase table.name)
      let baseName := if shouldIncludeContext fkContext table.name
        then baseBackName ++ toPascalCase fkContext
        else baseBackName
      some { name := ensureUniqueFieldName baseName referencedModel namingColumn
               table.name
             type := toPascalCase table.name
             attributes := ["@relation(\"" ++ (relationName ++ "\")")]
             isOptional := false
             isArray := true }

/-- The numeric-suffix loop of `generateDescriptiveRelationName`
    (`while usedNames.has(uniqueName)`), fueled like `suffixLoop`. -/
def relNameLoop (base : String) (used : List String) : Nat → Nat → String
  | 0, k => base ++ "_" ++ natToStr k
  | fuel + 1, k =>
    if base ++ "_" ++ natToStr k ∈ used then relNameLoop base used fuel (k + 1)
    else base ++ "_" ++ natToStr k

/-- `PrismaGenerator.generateDescriptiveRelationName`: returns the unique
    relation name and the grown used-name accumulator (the source mutates a
    shared `Set<string>`). -/
def generateDescriptiveRelationName (fromTable toTable fkColumn : String)
    (used : List String) : String × List String :=
  let fkContext := extractForeignKeyContext fkColumn
  let baseName := if shouldIncludeContext fkContext fromTable
    then toPascalCase fromTable ++ "To" ++ toPascalCase toTable ++ "_" ++
      toPascalCase fkContext
    else toPascalCase fromTable ++ "To" ++ toPascalCase toTable
  let uniqueName := if baseName ∈ used then relNameLoop baseName used (used.length + 1) 2
    else baseName
  (uniqueName, used ++ [uniqueName])

/-- `PrismaGenerator.isRelationField`. -/
def isRelationField (f : PrismaField) : Bool :=
  f.attributes.any (fun attr => includesStr attr "@relation")

/-- `PrismaGenerator.createBasicModel`. -/
def createBasicModel (table : SQLTable) (enums : List PrismaEnum) : PrismaModel :=
  let modelName := toPascalCase table.name
  let indexAttrs := table.indexes.map (fun idx =>
    if idx.unique then "@@unique([" ++ (joinComma (idx.columns.map toCamelCase) ++ "])")
    else "@@index([" ++ (joinComma (idx.columns.map toCamelCase) ++ "])"))
  { name := modelName
    fields := table.columns.map (fun c => convertColumnToField c enums)
    attributes := indexAttrs ++
      (if table.name ≠ lowerStr modelName then ["@@map(\"" ++ (table.name ++ "\")")]
       else [])
    comment := table.comment }

/-- Index of the first model with the given name (JS `models.find`). -/
def findIdxByName : List PrismaModel → String → Option Nat
  | [], _ => none
  | m :: rest, nm =>
    if m.name = nm then some 0
    else (findIdxByName rest nm).map (fun i => i + 1)

/-- Append a relation field to the model at position `k` (the source pushes
    onto the shared model object found by `models.find`). -/
def appendFieldAt (ms : List PrismaModel) (k : Nat) (f : PrismaField) :
    List PrismaModel :=
  match ms[k]? with
  | some m => ms.set k { m with fields := m.fields ++ [f] }
  | none => ms

/-- The forward-field push of the second pass: find the owning model by
    Pascal name and append the forward relation field to it. -/
def pushForward (c : SQLConstraint) (table : SQLTable) (relationName : String)
    (namingColumn : String) (ms : List PrismaModel) : List PrismaModel :=
  match findIdxByName ms (toPascalCase table.name) with
  | some i =>
    match ms[i]? with
    | some m =>
      match createRelationField c table relationName m namingColumn with
      | some f => appendFieldAt ms i f
      | none => ms
    | none => ms
  | none => ms

/-- The back-relation push of the second pass: find the referenced model by
    Pascal name (skipped when absent) and append the collection field. -/
def pushBackward (c : SQLConstraint) (table : SQLTable) (relationName : String)
    (refT : String) (namingColumn : String) (ms : List PrismaModel) :
    List PrismaModel :=
  match findIdxByName ms (toPascalCase refT) with
  | some j =>
    match ms[j]? with
    | some m2 =>
      match createBackRelationField c table relationName m2 namingColumn with
      | some f => appendFieldAt ms j f
      | none => ms
    | none => ms
  | none => ms

/-- One foreign-key constraint of the second pass of
    `convertTablesToModels`: generate the relation name, push the forward
    field onto the owning model, then push the back-relation field onto the
    referenced model (skipped when that model does not exist). -/
def processConstraint (table : SQLTable) (st : List PrismaModel × List String)
    (c : SQLConstraint) : List PrismaModel × List String :=
  match c.tag, c.referencedTable with
  | ConstraintTag.foreignKey, some refT =>
    let namingColumn := selectNamingColumn c
    let rn := generateDescriptiveRelationName table.name refT namingColumn st.2
    (pushBackward c table rn.1 refT namingColumn
      (pushForward c table rn.1 namingColumn st.1), rn.2)
  | _, _ => st

/-- `PrismaGenerator.convertTablesToModels`: first pass creates the scalar
    models, the second pass folds the relation fields over them, threading the
    used-relation-name accumulator in table-then-constraint order. -/
def convertTablesToModels (tables : List SQLTable) (enums : List PrismaEnum) :
    List PrismaModel :=
  let base := tables.map (fun t => createBasicModel t enums)
  (tables.foldl (fun st t => t.constraints.foldl (processConstraint t) st)
    (base, [])).1

/-! ## The three-foreign-keys-to-users scenario (claim C1) -/

/-- The `users(id)` table of the scenario. -/
def c1Users : SQLTable :=
  { name := "users",
    columns := [{ name := "id", type := "SERIAL", nullable := false,
                  isPrimaryKey := true, isUnique := true }],
    constraints := [] }

/-- A single-column foreign key to `users(id)`. -/
def fkToUsers (col : String) : SQLConstraint :=
  { tag := ConstraintTag.foreignKey, columns := [col],
    referencedTable := some "users", referencedColumns := some ["id"] }

/-- The `posts` table with `author_id`, `editor_id`, `reviewer_id` all
    referencing `users(id)`. -/
def c1Posts : SQLTable :=
  { name := "posts",
    columns := [
      { name := "id", type := "SERIAL", nullable := false,
        isPrimaryKey := true, isUnique := true },
      { name := "author_id", type := "INTEGER", nullable := false },
      { name := "editor_id", type := "INTEGER", nullable := true },
      { name := "reviewer_id", type := "INTEGER", nullable := true }],
    constraints := [fkToUsers "author_id", fkToUsers "editor_id",
      fkToUsers "reviewer_id"] }

/-- The generated models for the C1 scenario. -/
def c1Models : List PrismaModel := convertTablesToModels [c1Users, c1Posts] []

/-! ## Order dependence of the second pass (claim C8) -/

/-- A `post` table (singular name) with `author_id → users(id)`. -/
def c8Post : SQLTable :=
  { name := "post",
    columns := [
      { name := "id", type := "SERIAL", nullable := false,
        isPrimaryKey := true, isUnique := true },
      { name := "author_id", type := "INTEGER", nullable := false }],
    constraints := [fkToUsers "author_id"] }

/-- A `posts` table (plural name) with `author_id → users(id)`. -/
def c8Posts : SQLTable :=
  { name := "posts",
    columns := [
      { name := "id", type := "SERIAL", nullable := false,
        isPrimaryKey := true, isUnique := true },
      { name := "author_id", type := "INTEGER", nullable := false }],
    constraints := [fkToUsers "author_id"] }

/-- Models with `post` declared before `posts`. -/
def c8ModelsA : List PrismaModel := convertTablesToModels [c1Users, c8Post, c8Posts] []

/-- Models with `posts` declared before `post`. -/
def c8ModelsB : List PrismaModel := convertTablesToModels [c1Users, c8Posts, c8Post] []

/-! ## Scalar fields are order-invariant (claim C8, amended) -/

/-- A model's name together with its scalar (non-relation) fields, the part
    of a model the emitter prints before the relations section. -/
def scalarProjection (m : PrismaModel) : String × List PrismaField :=
  (m.name, m.fields.filter (fun f => !isRelationField f))

/-- The second pass only ever appends relation fields: every model keeps its
    basic-model name and its basic-model fields as a prefix, followed by
    relation fields only. -/
def modelsInv (base ms : List PrismaModel) : Prop :=
  ms.length = base.length ∧
  ∀ (i : Nat) (mb m : PrismaModel), base[i]? = some mb → ms[i]? = some m →
    m.name = mb.name ∧
    ∃ suf, m.fields = mb.fields ++ suf ∧ ∀ f ∈ suf, isRelationField f = true

/-! ## Statement segmenter (`SQLParser.parseSQL`, cleaning and splitting) -/

/-- One line of the line-comment removal (regex `--.*$`, multiline):
    cut from the first `--`. -/
def cutLineComment : List Char → List Char
  | [] => []
  | '-' :: '-' :: _ => []
  | c :: t => c :: cutLineComment t

/-- JS `split` on one separator character, empty pieces preserved. -/
def splitOnChar (sep : Char) : List Char → List (List Char)
  | [] => [[]]
  | c :: t =>
    match splitOnChar sep t with
    | [] => [[c]]
    | h :: rest => if c = sep then [] :: h :: rest else (c :: h) :: rest

/-- Rejoin pieces with a separator character. -/
def joinWithChar (sep : Char) (ls : List (List Char)) : List Char :=
  (ls.intersperse [sep]).flatten

/-- The line-comment removal (regex `--.*$`, global multiline): per line,
    drop everything from the first `--` on. -/
def removeLineComments (s : String) : String :=
  ⟨joinWithChar '\n' (((splitOnChar '\n' s.data)).map cutLineComment)⟩

/-- Text after the closing `*/`, if one exists. -/
def dropBlockComment : List Char → Option (List Char)
  | [] => none
  | _ :: [] => none
  | c :: c2 :: t2 =>
    if c = '*' ∧ c2 = '/' then some t2
    else dropBlockComment (c2 :: t2)

/-- The block-comment removal (lazy regex over the whole text), with
    explicit fuel so that the kernel can evaluate it; each step shortens the
    remaining text, so `l.length` fuel always suffices.  Each opener is
    removed together with the nearest following closer; an unterminated
    opener is kept verbatim. -/
def removeBlockCommentsFuel : Nat → List Char → List Char
  | 0, l => l
  | _ + 1, [] => []
  | _ + 1, c :: [] => [c]
  | fuel + 1, c :: c2 :: t2 =>
    if c = '/' ∧ c2 = '*' then
      match dropBlockComment t2 with
      | some rest => removeBlockCommentsFuel fuel rest
      | none => c :: removeBlockCommentsFuel fuel (c2 :: t2)
    else c :: removeBlockCommentsFuel fuel (c2 :: t2)

/-- The block-comment removal stage. -/
def removeBlockComments (l : List Char) : List Char :=
  removeBlockCommentsFuel l.length l

/-- The whitespace normalization (every whitespace run becomes one space),
    as a one-flag scanner: the flag records whether the previous character
    was whitespace. -/
def normalizeSpacesAux (prevSpace : Bool) : List Char → List Char
  | [] => []
  | c :: t =>
    if isSpaceChar c then
      if prevSpace then normalizeSpacesAux true t
      else ' ' :: normalizeSpacesAux true t
    else c :: normalizeSpacesAux false t

/-- The whitespace normalization stage. -/
def normalizeSpaces (l : List Char) : List Char := normalizeSpacesAux false l

/-- The cleaning stage of `SQLParser.parseSQL`: strip line comments, strip
    block comments, normalize whitespace, trim. -/
def cleanSQL (s : String) : String :=
  trimStr ⟨normalizeSpaces (removeBlockComments (removeLineComments s).data)⟩

/-- The statement list of `SQLParser.parseSQL`:
    `cleanedSQL.split(';').filter(stmt => stmt.trim())`. -/
def sqlStatements (s : String) : List String :=
  ((splitOnChar ';' (cleanSQL s).data).map (fun l => (⟨l⟩ : String))).filter
    (fun st => !(trimStr st).data.isEmpty)

/-- Single-quote character, used to build inputs holding quoted literals. -/
def squote : Char := Char.ofNat 39

/-- An input whose quoted string literal holds a semicolon. -/
def c7Input : String := "COMMENT ON TABLE t IS " ++ ⟨[squote, 'a', ';', 'b', squote]⟩

/-! ## `SQLParser.parseAlterTableForeignKey` -/

/-- Case-insensitive literal keyword match, returning the rest. -/
def matchKeyword : List Char → List Char → Option (List Char)
  | [], l => some l
  | _ :: _, [] => none
  | k :: ks, c :: cs => if lcChar k = lcChar c then matchKeyword ks cs else none

/-- One-or-more whitespace characters, consumed greedily. -/
def ws1 : List Char → Option (List Char)
  | c :: cs => if isSpaceChar c then some (cs.dropWhile isSpaceChar) else none
  | [] => none

/-- Zero-or-more whitespace characters. -/
def ws0 (l : List Char) : List Char := l.dropWhile isSpaceChar

/-- One literal character. -/
def matchChar (ch : Char) : List Char → Option (List Char)
  | c :: cs => if c = ch then some cs else none
  | [] => none

/-- A quoted (`"[^"]+"`) or unquoted (`\w+`) identifier; the quoted
    alternative is committed to whenever the next character is `"`. -/
def matchIdent (l : List Char) : Option (String × List Char) :=
  match l with
  | '"' :: cs =>
    let inner := cs.takeWhile (fun c => c ≠ '"')
    if inner.isEmpty then none
    else
      match cs.dropWhile (fun c => c ≠ '"') with
      | '"' :: rest2 => some (⟨inner⟩, rest2)
      | _ => none
  | _ =>
    let w := l.takeWhile isWordChar
    if w.isEmpty then none else some (⟨w⟩, l.drop w.length)

/-- The tail of the ALTER-FOREIGN-KEY pattern from `FOREIGN` on:
    `FOREIGN\s+KEY\s*\(\s*ident\s*\)\s+REFERENCES\s+ident\s*\(\s*ident\s*\)`. -/
def matchFKTail (tname : String) (l : List Char) :
    Option (String × String × String × String) := do
  let r1 ← matchKeyword "foreign".data l
  let r2 ← ws1 r1
  let r3 ← matchKeyword "key".data r2
  let r4 ← matchChar '(' (ws0 r3)
  let (fkcol, r5) ← matchIdent (ws0 r4)
  let r6 ← matchChar ')' (ws0 r5)
  let r7 ← ws1 r6
  let r8 ← matchKeyword "references".data r7
  let r9 ← ws1 r8
  let (rtname, r10) ← matchIdent r9
  let r11 ← matchChar '(' (ws0 r10)
  let (rcol, r12) ← matchIdent (ws0 r11)
  let _ ← matchChar ')' (ws0 r12)
  pure (tname, fkcol, rtname, rcol)

/-- The full pattern anchored at the current position:
    `ALTER\s+TABLE\s+ident\s+ADD\s+(CONSTRAINT\s+ident\s+)?FOREIGN KEY ...`;
    the optional CONSTRAINT group backtracks as the regex engine does: if the
    rest fails with the group consumed, it is retried without it. -/
def matchAlterAt (l : List Char) : Option (String × String × String × String) := do
  let r1 ← matchKeyword "alter".data l
  let r2 ← ws1 r1
  let r3 ← matchKeyword "table".data r2
  let r4 ← ws1 r3
  let (tname, r5) ← matchIdent r4
  let r6 ← ws1 r5
  let r7 ← matchKeyword "add".data r6
  let r8 ← ws1 r7
  match (do
      let x1 ← matchKeyword "constraint".data r8
      let x2 ← ws1 x1
      let (_, x3) ← matchIdent x2
      let x4 ← ws1 x3
      matchFKTail tname x4) with
  | some res => pure res
  | none => matchFKTail tname r8

/-- Unanchored search: try the pattern at every position, left to right
    (the JS `String.prototype.match` behaviour for an unanchored regex). -/
def matchAlterFK : List Char → Option (String × String × String × String)
  | [] => none
  | c :: t =>
    match matchAlterAt (c :: t) with
    | some r => some r
    | none => matchAlterFK t

/-- Append a foreign-key constraint to the first table with the given name
    (JS `tables.find` followed by `push`); no table, no change. -/
def addFKToFirst : List SQLTable → String → SQLConstraint → List SQLTable
  | [], _, _ => []
  | t :: rest, nm, k =>
    if t.name = nm then { t with constraints := t.constraints ++ [k] } :: rest
    else t :: addFKToFirst rest nm k

/-- `SQLParser.parseAlterTableForeignKey`: on a match, attach the single
    foreign-key constraint to the table named in the ALTER clause. -/
def parseAlterTableForeignKey (s : String) (tables : List SQLTable) :
    List SQLTable :=
  match matchAlterFK s.data with
  | none => tables
  | some (a, colName, rt, rc) =>
    addFKToFirst tables a
      { tag := ConstraintTag.foreignKey, columns := [colName],
        referencedTable := some rt, referencedColumns := some [rc] }

/-- A `posts` table without constraints, for the C6 witness. -/
def egPostsBare : SQLTable :=
  { name := "posts",
    columns := [{ name := "author_id", type := "INTEGER", nullable := true }],
    constraints := [] }

/-! Helper lemmas for `pluralize`. -/

theorem lowerStr_data (s : String) : (lowerStr s).data = s.data.map lcChar := rfl

theorem data_append_str (s t : String) : (s ++ t).data = s.data ++ t.data :=
  String.data_append s t

theorem endsWithStr_s_append (w : String) (t : List Char)
    (ht : t ≠ []) (hlast : t.getLast ht = 's') :
    endsWithStr ⟨w.data ++ t⟩ "s" = true := by
  have hs : ("s" : String).data = ['s'] := rfl
  unfold endsWithStr
  simp only [hs, List.isSuffixOf_iff_suffix]
  have : t.dropLast ++ ['s'] = t := by
    rw [← hlast]
    exact List.dropLast_append_getLast ht
  calc ['s'] <:+ t := ⟨t.dropLast, this⟩
    _ <:+ w.data ++ t := (List.suffix_append w.data t).trans (List.suffix_refl _)

theorem lowerStr_append (s t : String) :
    lowerStr (s ++ t) = lowerStr s ++ lowerStr t := by
  apply String.ext
  simp [lowerStr_data, data_append_str, List.map_append]

/-- Every result of `pluralize` ends (case-insensitively) in `s`. -/
theorem pluralize_ends_s (w : String) :
    endsWithStr (lowerStr (pluralize w)) "s" = true := by
  unfold pluralize
  simp only []
  split
  · assumption
  · split
    · rw [lowerStr_append]
      have : (lowerStr w ++ lowerStr "es").data = (lowerStr w).data ++ ['e', 's'] := by
        simp [data_append_str]
        rfl
      rw [show lowerStr w ++ lowerStr "es" = ⟨(lowerStr w).data ++ ['e', 's']⟩ from
        String.ext this]
      exact endsWithStr_s_append _ _ (by simp) (by simp)
    · split
      · rw [lowerStr_append]
        have : (lowerStr ⟨w.data.dropLast⟩ ++ lowerStr "ies").data =
            (lowerStr ⟨w.data.dropLast⟩).data ++ ['i', 'e', 's'] := by
          simp [data_append_str]
          rfl
        rw [show lowerStr ⟨w.data.dropLast⟩ ++ lowerStr "ies" =
            ⟨(lowerStr ⟨w.data.dropLast⟩).data ++ ['i', 'e', 's']⟩ from String.ext this]
        exact endsWithStr_s_append _ _ (by simp) (by simp)
      · rw [lowerStr_append]
        have : (lowerStr w ++ lowerStr "s").data = (lowerStr w).data ++ ['s'] := by
          simp [data_append_str]
          rfl
        rw [show lowerStr w ++ lowerStr "s" = ⟨(lowerStr w).data ++ ['s']⟩ from
          String.ext this]
        exact endsWithStr_s_append _ _ (by simp) (by simp)

/-- `pluralize` fixes every word already ending in `s`. -/
theorem pluralize_of_ends_s (w : String)
    (h : endsWithStr (lowerStr w) "s" = true) : pluralize w = w := by
  unfold pluralize
  simp [h]

/-- C9 counterexample: the claim says a trailing `y` is replaced by `ies`
    only when preceded by a consonant, with `s` appended otherwise.  The code
    replaces the `y` whenever the preceding character is not a vowel: on
    `"a_y"` (underscore before the `y`, not a consonant) it yields `"a_ies"`,
    not the `"a_ys"` the claim requires. -/
theorem C9_counterexample_pluralize_y :
    pluralize "a_y" = "a_ies" ∧ "a_ies" ≠ "a_ys" := by
  constructor
  · rfl
  · decide

/-- C9 (amended): `pluralize` keeps words already ending in `s`, appends `es`
    after `sh`, `ch`, `x`, `z`, replaces a trailing `y` NOT preceded by a vowel
    (`a`, `e`, `i`, `o`, `u`) by `ies`, and appends `s` otherwise; it is
    idempotent, and `pluralize "posts" = "posts"`. -/
theorem C9_pluralize_rules_idempotent (w : String) :
    (endsWithStr (lowerStr w) "s" = true → pluralize w = w)
    ∧ (endsWithStr (lowerStr w) "s" = false →
        (endsWithStr (lowerStr w) "sh" || endsWithStr (lowerStr w) "ch" ||
          endsWithStr (lowerStr w) "x" || endsWithStr (lowerStr w) "z") = true →
        pluralize w = w ++ "es")
    ∧ (endsWithStr (lowerStr w) "s" = false →
        (endsWithStr (lowerStr w) "sh" || endsWithStr (lowerStr w) "ch" ||
          endsWithStr (lowerStr w) "x" || endsWithStr (lowerStr w) "z") = false →
        (endsWithStr (lowerStr w) "y" &&
          !(endsWithStr (lowerStr w) "ay" || endsWithStr (lowerStr w) "ey" ||
            endsWithStr (lowerStr w) "iy" || endsWithStr (lowerStr w) "oy" ||
            endsWithStr (lowerStr w) "uy")) = true →
        pluralize w = ⟨w.data.dropLast⟩ ++ "ies")
    ∧ (endsWithStr (lowerStr w) "s" = false →
        (endsWithStr (lowerStr w) "sh" || endsWithStr (lowerStr w) "ch" ||
          endsWithStr (lowerStr w) "x" || endsWithStr (lowerStr w) "z") = false →
        (endsWithStr (lowerStr w) "y" &&
          !(endsWithStr (lowerStr w) "ay" || endsWithStr (lowerStr w) "ey" ||
            endsWithStr (lowerStr w) "iy" || endsWithStr (lowerStr w) "oy" ||
            endsWithStr (lowerStr w) "uy")) = false →
        pluralize w = w ++ "s")
    ∧ pluralize (pluralize w) = pluralize w
    ∧ pluralize "posts" = "posts" := by
  refine ⟨?_, ?_, ?_, ?_, ?_, rfl⟩
  · intro h
    exact pluralize_of_ends_s w h
  · intro h1 h2
    unfold pluralize
    simp [h1, h2]
  · intro h1 h2 h3
    have g1 : ¬ (endsWithStr (lowerStr w) "s" = true) := by
      rw [h1]
      exact Bool.false_ne_true
    have g2 : ¬ ((endsWithStr (lowerStr w) "sh" || endsWithStr (lowerStr w) "ch" ||
        endsWithStr (lowerStr w) "x" || endsWithStr (lowerStr w) "z") = true) := by
      rw [h2]
      exact Bool.false_ne_true
    simp only [pluralize]
    rw [if_neg g1, if_neg g2, if_pos h3]
  · intro h1 h2 h3
    have g1 : ¬ (endsWithStr (lowerStr w) "s" = true) := by
      rw [h1]
      exact Bool.false_ne_true
    have g2 : ¬ ((endsWithStr (lowerStr w) "sh" || endsWithStr (lowerStr w) "ch" ||
        endsWithStr (lowerStr w) "x" || endsWithStr (lowerStr w) "z") = true) := by
      rw [h2]
      exact Bool.false_ne_true
    have g3 : ¬ ((endsWithStr (lowerStr w) "y" &&
        !(endsWithStr (lowerStr w) "ay" || endsWithStr (lowerStr w) "ey" ||
          endsWithStr (lowerStr w) "iy" || endsWithStr (lowerStr w) "oy" ||
          endsWithStr (lowerStr w) "uy")) = true) := by
      rw [h3]
      exact Bool.false_ne_true
    simp only [pluralize]
    rw [if_neg g1, if_neg g2, if_neg g3]
  · exact pluralize_of_ends_s _ (pluralize_ends_s w)

/-- C9 witness: the amended rules applied at concrete inputs. -/
theorem C9_pluralize_rules_idempotent_witness :
    pluralize "box" = "boxes" ∧ pluralize "city" = "cities" := by
  constructor
  · exact (C9_pluralize_rules_idempotent "box").2.1 (by decide) (by decide)
  · exact (C9_pluralize_rules_idempotent "city").2.2.1 (by decide) (by decide) (by decide)

theorem findIdIdx_lt_length (l : List String) (i : Nat)
    (h : findIdIdx l = some i) : i < l.length := by
  induction l generalizing i with
  | nil => simp [findIdIdx] at h
  | cons hd tl ih =>
    unfold findIdIdx at h
    by_cases hhd : lowerStr hd = "id"
    · rw [if_pos hhd] at h
      injection h with h2
      simp [← h2]
    · simp only [hhd, if_neg, ite_false] at h
      cases htl : findIdIdx tl with
      | none => rw [htl] at h; simp at h
      | some j =>
        rw [htl] at h
        simp only [Option.some.injEq] at h
        have := ih j htl
        simp [← h, List.length_cons]
        omega

/-- C2: naming-column selection.  Under the parse invariant that the
    referenced-column list is present and positionally matches the owning
    columns: a single-column constraint names by its only column; otherwise
    the owning column at the first referenced position lower-casing to `id`
    is chosen, and with no such position the last owning column is chosen.
    Consequently a composite key `(scope, business) → (r, id)` with
    `r` not named `id` always names by `business`. -/
theorem C2_selectNamingColumn (c : SQLConstraint) (rcs : List String)
    (href : c.referencedColumns = some rcs)
    (hlen : rcs.length = c.columns.length)
    (hne : c.columns ≠ []) :
    (∀ x, c.columns = [x] → selectNamingColumn c = x)
    ∧ (1 < c.columns.length → ∀ i, findIdIdx rcs = some i →
        selectNamingColumn c = c.columns.getD i "")
    ∧ (1 < c.columns.length → findIdIdx rcs = none →
        selectNamingColumn c = c.columns.getLastD "")
    ∧ (∀ s b r i2, c.columns = [s, b] → rcs = [r, i2] →
        lowerStr r ≠ "id" → lowerStr i2 = "id" →
        selectNamingColumn c = b) := by
  refine ⟨?_, ?_, ?_, ?_⟩
  · intro x hx
    unfold selectNamingColumn
    simp [hx]
  · intro hgt i hi
    unfold selectNamingColumn
    have h1 : (c.referencedColumns.isNone || c.columns.length == 1) = false := by
      simp [href]
      omega
    rw [h1]
    simp only [Bool.false_eq_true, if_false, href, hi]
    have hilt : i < c.columns.length := hlen ▸ findIdIdx_lt_length rcs i hi
    simp [hilt]
  · intro hgt hnone
    unfold selectNamingColumn
    have h1 : (c.referencedColumns.isNone || c.columns.length == 1) = false := by
      simp [href]
      omega
    rw [h1]
    simp [href, hnone]
  · intro s b r i2 hcols hrcs hr hi2
    unfold selectNamingColumn
    have h1 : (c.referencedColumns.isNone || c.columns.length == 1) = false := by
      simp [href, hcols]
    rw [h1]
    have hfind : findIdIdx rcs = some 1 := by
      rw [hrcs]
      show (if lowerStr r = "id" then some 0
        else match findIdIdx [i2] with
          | some i => some (i + 1)
          | none => none) = some 1
      rw [if_neg hr]
      show (match (if lowerStr i2 = "id" then some 0
        else match findIdIdx ([] : List String) with
          | some i => some (i + 1)
          | none => none) with
        | some i => some (i + 1)
        | none => none) = some 1
      rw [if_pos hi2]
    simp only [Bool.false_eq_true, if_false, href, hfind]
    simp [hcols]

/-- C2 witness: the composite key `(tenant_id, author_id) → users (tenant_id, id)`
    selects `author_id`. -/
theorem C2_selectNamingColumn_witness :
    selectNamingColumn
      { tag := ConstraintTag.foreignKey,
        columns := ["tenant_id", "author_id"],
        referencedTable := some "users",
        referencedColumns := some ["tenant_id", "id"] } = "author_id" :=
  (C2_selectNamingColumn _ ["tenant_id", "id"] rfl (by decide) (by decide)).2.2.2
    "tenant_id" "author_id" "tenant_id" "id" rfl rfl (by decide) (by decide)

/-- C4 counterexample: with naming column `id` and referenced table `users`,
    `extractRelationFieldName` returns the camel-cased table name `"users"`,
    not the singular `"user"` required by the claim. -/
theorem C4_counterexample_no_singular :
    extractRelationFieldName "id" "users" = "users" ∧ "users" ≠ "user" := by
  constructor
  · rfl
  · decide

/-- C4 (amended): the base forward field name is the referenced table's
    camel-cased (not singularized) name when the naming column lower-cases to
    `id`; the referenced table's camel-cased name when the context (naming
    column with `_id` stripped) equals the referenced table's name ignoring
    case; and otherwise the camel-cased context itself. -/
theorem C4_extractRelationFieldName (fkColumn targetTable : String) :
    (lowerStr fkColumn = "id" →
      extractRelationFieldName fkColumn targetTable = toCamelCase targetTable)
    ∧ (lowerStr fkColumn ≠ "id" →
        lowerStr (stripIdSuffix fkColumn) = lowerStr targetTable →
        extractRelationFieldName fkColumn targetTable = toCamelCase targetTable)
    ∧ (lowerStr fkColumn ≠ "id" →
        lowerStr (stripIdSuffix fkColumn) ≠ lowerStr targetTable →
        extractRelationFieldName fkColumn targetTable =
          toCamelCase (stripIdSuffix fkColumn)) := by
  refine ⟨?_, ?_, ?_⟩
  · intro h
    unfold extractRelationFieldName
    rw [if_pos h]
  · intro h1 h2
    unfold extractRelationFieldName
    rw [if_neg h1]
    show (if lowerStr (stripIdSuffix fkColumn) = lowerStr targetTable
      then toCamelCase targetTable
      else toCamelCase (stripIdSuffix fkColumn)) = toCamelCase targetTable
    rw [if_pos h2]
  · intro h1 h2
    unfold extractRelationFieldName
    rw [if_neg h1]
    show (if lowerStr (stripIdSuffix fkColumn) = lowerStr targetTable
      then toCamelCase targetTable
      else toCamelCase (stripIdSuffix fkColumn)) = toCamelCase (stripIdSuffix fkColumn)
    rw [if_neg h2]

/-- C4 witness: the three branches at concrete inputs. -/
theorem C4_extractRelationFieldName_witness :
    extractRelationFieldName "id" "user_profiles" = "userProfiles"
    ∧ extractRelationFieldName "users_id" "users" = "users"
    ∧ extractRelationFieldName "author_id" "users" = "author" := by
  refine ⟨?_, ?_, ?_⟩
  · exact (C4_extractRelationFieldName "id" "user_profiles").1 (by decide)
  · exact (C4_extractRelationFieldName "users_id" "users").2.1 (by decide) (by decide)
  · exact (C4_extractRelationFieldName "author_id" "users").2.2 (by decide) (by decide)

theorem decVal_append_single (l : List Nat) (d : Nat) :
    decVal (l ++ [d]) = 10 * decVal l + d := by
  simp [decVal, List.foldl_append]

theorem decVal_decDigits (n : Nat) : decVal (decDigits n) = n := by
  induction n using Nat.strong_induction_on with
  | _ n ih =>
    unfold decDigits
    split
    · simp [decVal]
    · rename_i h
      rw [decVal_append_single, ih (n / 10) (Nat.div_lt_self (by omega) (by omega))]
      omega

theorem decDigits_lt_ten (n : Nat) : ∀ d ∈ decDigits n, d < 10 := by
  induction n using Nat.strong_induction_on with
  | _ n ih =>
    unfold decDigits
    split
    · rename_i h
      intro d hd
      simp at hd
      omega
    · rename_i h
      intro d hd
      rw [List.mem_append] at hd
      cases hd with
      | inl h1 => exact ih (n / 10) (Nat.div_lt_self (by omega) (by omega)) d h1
      | inr h2 =>
        simp at h2
        subst h2
        exact Nat.mod_lt n (by omega)

theorem digitChar_inj (a b : Nat) (ha : a < 10) (hb : b < 10)
    (h : digitChar a = digitChar b) : a = b := by
  interval_cases a <;> interval_cases b <;> simp_all [digitChar]

theorem map_digitChar_inj : ∀ (l1 l2 : List Nat),
    (∀ d ∈ l1, d < 10) → (∀ d ∈ l2, d < 10) →
    l1.map digitChar = l2.map digitChar → l1 = l2 := by
  intro l1
  induction l1 with
  | nil =>
    intro l2 _ _ h
    cases l2 with
    | nil => rfl
    | cons c t => simp at h
  | cons c t ih =>
    intro l2 h1 h2 h
    cases l2 with
    | nil => simp at h
    | cons c2 t2 =>
      simp only [List.map_cons, List.cons.injEq] at h
      have hc : c = c2 :=
        digitChar_inj c c2 (h1 c (by simp)) (h2 c2 (by simp)) h.1
      have ht : t = t2 :=
        ih t2 (fun d hd => h1 d (by simp [hd])) (fun d hd => h2 d (by simp [hd])) h.2
      rw [hc, ht]

theorem natToStr_inj (a b : Nat) (h : natToStr a = natToStr b) : a = b := by
  have hd : (decDigits a).map digitChar = (decDigits b).map digitChar :=
    congrArg String.data h
  have := map_digitChar_inj (decDigits a) (decDigits b)
    (decDigits_lt_ten a) (decDigits_lt_ten b) hd
  have hv := congrArg decVal this
  rwa [decVal_decDigits, decVal_decDigits] at hv

theorem append_left_cancel_str (s a b : String) (h : s ++ a = s ++ b) : a = b := by
  have hdata : s.data ++ a.data = s.data ++ b.data := by
    have := congrArg String.data h
    rwa [data_append_str, data_append_str] at this
  exact String.ext (List.append_cancel_left hdata)

theorem suffixLoop_spec (base : String) (ex : List String) :
    ∀ fuel start, (∃ j, j < fuel ∧ (base ++ natToStr (start + j)) ∉ ex) →
    ∃ j, j < fuel ∧ suffixLoop base ex fuel start = base ++ natToStr (start + j) ∧
      (base ++ natToStr (start + j)) ∉ ex ∧
      ∀ i, i < j → (base ++ natToStr (start + i)) ∈ ex := by
  intro fuel
  induction fuel with
  | zero =>
    intro start h
    obtain ⟨j, hj, _⟩ := h
    omega
  | succ f ih =>
    intro start h
    by_cases hmem : (base ++ natToStr start) ∈ ex
    · obtain ⟨j, hj, hfree⟩ := h
      have hj0 : j ≠ 0 := by
        intro h0
        rw [h0, Nat.add_zero] at hfree
        exact hfree hmem
      have hex : ∃ j2, j2 < f ∧ (base ++ natToStr (start + 1 + j2)) ∉ ex := by
        refine ⟨j - 1, by omega, ?_⟩
        have : start + 1 + (j - 1) = start + j := by omega
        rwa [this]
      obtain ⟨j2, hj2, heq, hfree2, hmin⟩ := ih (start + 1) hex
      refine ⟨j2 + 1, by omega, ?_, ?_, ?_⟩
      · show suffixLoop base ex (f + 1) start = _
        unfold suffixLoop
        rw [if_pos hmem]
        rw [heq]
        have : start + 1 + j2 = start + (j2 + 1) := by omega
        rw [this]
      · have : start + (j2 + 1) = start + 1 + j2 := by omega
        rwa [this]
      · intro i hi
        cases i with
        | zero => simpa using hmem
        | succ i2 =>
          have : start + (i2 + 1) = start + 1 + i2 := by omega
          rw [this]
          exact hmin i2 (by omega)
    · refine ⟨0, by omega, ?_, ?_, ?_⟩
      · show suffixLoop base ex (f + 1) start = _
        unfold suffixLoop
        rw [if_neg hmem, Nat.add_zero]
      · rwa [Nat.add_zero]
      · intro i hi
        omega

theorem exists_free_candidate (base : String) (ex : List String) (start : Nat) :
    ∃ j, j < ex.length + 1 ∧ (base ++ natToStr (start + j)) ∉ ex := by
  by_contra hcon
  push_neg at hcon
  have hinj : Function.Injective (fun j : Nat => base ++ natToStr (start + j)) := by
    intro a b hab
    have := append_left_cancel_str base _ _ hab
    have := natToStr_inj _ _ this
    omega
  have hnodup : ((List.range (ex.length + 1)).map
      (fun j => base ++ natToStr (start + j))).Nodup :=
    (List.nodup_range _).map hinj
  have hsub : ((List.range (ex.length + 1)).map
      (fun j => base ++ natToStr (start + j))) ⊆ ex := by
    intro x hx
    simp only [List.mem_map, List.mem_range] at hx
    obtain ⟨j, hj, rfl⟩ := hx
    exact hcon j hj
  have hlen : ((List.range (ex.length + 1)).map
      (fun j => base ++ natToStr (start + j))).length = ex.length + 1 := by
    simp
  have hle : ((List.range (ex.length + 1)).map
      (fun j => base ++ natToStr (start + j))).length ≤ ex.length := by
    have h3 : ((List.range (ex.length + 1)).map
        (fun j => base ++ natToStr (start + j))).toFinset ⊆ ex.toFinset := by
      intro a ha
      rw [List.mem_toFinset] at ha ⊢
      exact hsub ha
    have h4 := Finset.card_le_card h3
    rw [List.toFinset_card_of_nodup hnodup] at h4
    exact h4.trans (List.toFinset_card_le ex)
  omega

/-! Per-stage computation lemmas for `ensureUniqueFieldName`. -/

theorem eu_stage1 (baseName : String) (model : PrismaModel) (fkColumn sourceTable : String)
    (h1 : baseName ∉ model.fields.map (fun f => f.name)) :
    ensureUniqueFieldName baseName model fkColumn sourceTable = baseName := by
  simp only [ensureUniqueFieldName]
  rw [if_pos h1]

theorem eu_stage2 (baseName : String) (model : PrismaModel) (fkColumn sourceTable : String)
    (h1 : baseName ∈ model.fields.map (fun f => f.name))
    (h2 : toCamelCase (stripIdSuffix fkColumn) ≠ baseName ∧
      toCamelCase (stripIdSuffix fkColumn) ∉ model.fields.map (fun f => f.name)) :
    ensureUniqueFieldName baseName model fkColumn sourceTable =
      toCamelCase (stripIdSuffix fkColumn) := by
  simp only [ensureUniqueFieldName]
  rw [if_neg (not_not_intro h1), if_pos h2]

theorem eu_stage3 (baseName : String) (model : PrismaModel) (fkColumn sourceTable : String)
    (h1 : baseName ∈ model.fields.map (fun f => f.name))
    (h2 : ¬(toCamelCase (stripIdSuffix fkColumn) ≠ baseName ∧
      toCamelCase (stripIdSuffix fkColumn) ∉ model.fields.map (fun f => f.name)))
    (h3 : toCamelCase sourceTable ++ toPascalCase baseName ∉
      model.fields.map (fun f => f.name)) :
    ensureUniqueFieldName baseName model fkColumn sourceTable =
      toCamelCase sourceTable ++ toPascalCase baseName := by
  simp only [ensureUniqueFieldName]
  rw [if_neg (not_not_intro h1), if_neg h2, if_pos h3]

theorem eu_stage4 (baseName : String) (model : PrismaModel) (fkColumn sourceTable : String)
    (h1 : baseName ∈ model.fields.map (fun f => f.name))
    (h2 : ¬(toCamelCase (stripIdSuffix fkColumn) ≠ baseName ∧
      toCamelCase (stripIdSuffix fkColumn) ∉ model.fields.map (fun f => f.name)))
    (h3 : toCamelCase sourceTable ++ toPascalCase baseName ∈
      model.fields.map (fun f => f.name))
    (h4 : toCamelCase fkColumn ∉ model.fields.map (fun f => f.name)) :
    ensureUniqueFieldName baseName model fkColumn sourceTable = toCamelCase fkColumn := by
  simp only [ensureUniqueFieldName]
  rw [if_neg (not_not_intro h1), if_neg h2, if_neg (not_not_intro h3), if_pos h4]

theorem eu_stage5 (baseName : String) (model : PrismaModel) (fkColumn sourceTable : String)
    (h1 : baseName ∈ model.fields.map (fun f => f.name))
    (h2 : ¬(toCamelCase (stripIdSuffix fkColumn) ≠ baseName ∧
      toCamelCase (stripIdSuffix fkColumn) ∉ model.fields.map (fun f => f.name)))
    (h3 : toCamelCase sourceTable ++ toPascalCase baseName ∈
      model.fields.map (fun f => f.name))
    (h4 : toCamelCase fkColumn ∈ model.fields.map (fun f => f.name))
    (h5 : toCamelCase (sourceTable ++ "_" ++ stripIdSuffix fkColumn) ∉
      model.fields.map (fun f => f.name)) :
    ensureUniqueFieldName baseName model fkColumn sourceTable =
      toCamelCase (sourceTable ++ "_" ++ stripIdSuffix fkColumn) := by
  simp only [ensureUniqueFieldName]
  rw [if_neg (not_not_intro h1), if_neg h2, if_neg (not_not_intro h3),
    if_neg (not_not_intro h4), if_pos h5]

theorem eu_stage6 (baseName : String) (model : PrismaModel) (fkColumn sourceTable : String)
    (h1 : baseName ∈ model.fields.map (fun f => f.name))
    (h2 : ¬(toCamelCase (stripIdSuffix fkColumn) ≠ baseName ∧
      toCamelCase (stripIdSuffix fkColumn) ∉ model.fields.map (fun f => f.name)))
    (h3 : toCamelCase sourceTable ++ toPascalCase baseName ∈
      model.fields.map (fun f => f.name))
    (h4 : toCamelCase fkColumn ∈ model.fields.map (fun f => f.name))
    (h5 : toCamelCase (sourceTable ++ "_" ++ stripIdSuffix fkColumn) ∈
      model.fields.map (fun f => f.name)) :
    ensureUniqueFieldName baseName model fkColumn sourceTable =
      suffixLoop (toCamelCase (sourceTable ++ "_" ++ stripIdSuffix fkColumn))
        (model.fields.map (fun f => f.name))
        ((model.fields.map (fun f => f.name)).length + 1) 2 := by
  simp only [ensureUniqueFieldName]
  rw [if_neg (not_not_intro h1), if_neg h2, if_neg (not_not_intro h3),
    if_neg (not_not_intro h4), if_neg (not_not_intro h5)]

/-- C3: the uniqueness cascade tries, in order, (1) the computed base name,
    (2) the naming column with `_id` stripped, camel-cased, if different from
    the base name, (3) the camel-cased owning-table name with the Pascal-cased
    base appended, (4) the full naming column camel-cased, (5) the owning
    table concatenated with the stripped naming column, camel-cased, and
    (6) name (5) with a numeric counter from 2 incremented until free; it
    returns the first candidate absent from the target model's current field
    names, so the result is never an existing field name of that model. -/
theorem C3_ensureUniqueFieldName (baseName : String) (model : PrismaModel)
    (fkColumn sourceTable : String) :
    ensureUniqueFieldName baseName model fkColumn sourceTable ∉
      model.fields.map (fun f => f.name)
    ∧ (baseName ∉ model.fields.map (fun f => f.name) →
        ensureUniqueFieldName baseName model fkColumn sourceTable = baseName)
    ∧ (baseName ∈ model.fields.map (fun f => f.name) →
        toCamelCase (stripIdSuffix fkColumn) ≠ baseName →
        toCamelCase (stripIdSuffix fkColumn) ∉ model.fields.map (fun f => f.name) →
        ensureUniqueFieldName baseName model fkColumn sourceTable =
          toCamelCase (stripIdSuffix fkColumn))
    ∧ (baseName ∈ model.fields.map (fun f => f.name) →
        (toCamelCase (stripIdSuffix fkColumn) = baseName ∨
          toCamelCase (stripIdSuffix fkColumn) ∈ model.fields.map (fun f => f.name)) →
        toCamelCase sourceTable ++ toPascalCase baseName ∉
          model.fields.map (fun f => f.name) →
        ensureUniqueFieldName baseName model fkColumn sourceTable =
          toCamelCase sourceTable ++ toPascalCase baseName)
    ∧ (baseName ∈ model.fields.map (fun f => f.name) →
        (toCamelCase (stripIdSuffix fkColumn) = baseName ∨
          toCamelCase (stripIdSuffix fkColumn) ∈ model.fields.map (fun f => f.name)) →
        toCamelCase sourceTable ++ toPascalCase baseName ∈
          model.fields.map (fun f => f.name) →
        toCamelCase fkColumn ∉ model.fields.map (fun f => f.name) →
        ensureUniqueFieldName baseName model fkColumn sourceTable =
          toCamelCase fkColumn)
    ∧ (baseName ∈ model.fields.map (fun f => f.name) →
        (toCamelCase (stripIdSuffix fkColumn) = baseName ∨
          toCamelCase (stripIdSuffix fkColumn) ∈ model.fields.map (fun f => f.name)) →
        toCamelCase sourceTable ++ toPascalCase baseName ∈
          model.fields.map (fun f => f.name) →
        toCamelCase fkColumn ∈ model.fields.map (fun f => f.name) →
        toCamelCase (sourceTable ++ "_" ++ stripIdSuffix fkColumn) ∉
          model.fields.map (fun f => f.name) →
        ensureUniqueFieldName baseName model fkColumn sourceTable =
          toCamelCase (sourceTable ++ "_" ++ stripIdSuffix fkColumn))
    ∧ (baseName ∈ model.fields.map (fun f => f.name) →
        (toCamelCase (stripIdSuffix fkColumn) = baseName ∨
          toCamelCase (stripIdSuffix fkColumn) ∈ model.fields.map (fun f => f.name)) →
        toCamelCase sourceTable ++ toPascalCase baseName ∈
          model.fields.map (fun f => f.name) →
        toCamelCase fkColumn ∈ model.fields.map (fun f => f.name) →
        toCamelCase (sourceTable ++ "_" ++ stripIdSuffix fkColumn) ∈
          model.fields.map (fun f => f.name) →
        ∃ k, 2 ≤ k ∧
          ensureUniqueFieldName baseName model fkColumn sourceTable =
            toCamelCase (sourceTable ++ "_" ++ stripIdSuffix fkColumn) ++ natToStr k ∧
          ∀ j, 2 ≤ j → j < k →
            toCamelCase (sourceTable ++ "_" ++ stripIdSuffix fkColumn) ++ natToStr j ∈
              model.fields.map (fun f => f.name)) := by
  by_cases h1 : baseName ∈ model.fields.map (fun f => f.name)
  · by_cases h2 : toCamelCase (stripIdSuffix fkColumn) ≠ baseName ∧
        toCamelCase (stripIdSuffix fkColumn) ∉ model.fields.map (fun f => f.name)
    · have hr := eu_stage2 baseName model fkColumn sourceTable h1 h2
      refine ⟨by rw [hr]; exact h2.2, fun hn => absurd h1 hn, fun _ _ _ => hr,
        ?_, ?_, ?_, ?_⟩
      all_goals intro _ hor
      all_goals rcases hor with he | hm
      all_goals first
        | exact absurd he h2.1
        | exact fun _ _ _ _ => absurd hm h2.2
        | exact fun _ _ _ => absurd hm h2.2
        | exact fun _ _ => absurd hm h2.2
        | exact fun _ => absurd hm h2.2
    · have hor : toCamelCase (stripIdSuffix fkColumn) = baseName ∨
          toCamelCase (stripIdSuffix fkColumn) ∈ model.fields.map (fun f => f.name) := by
        by_contra hc
        push_neg at hc
        exact h2 ⟨hc.1, hc.2⟩
      by_cases h3 : toCamelCase sourceTable ++ toPascalCase baseName ∈
          model.fields.map (fun f => f.name)
      · by_cases h4 : toCamelCase fkColumn ∈ model.fields.map (fun f => f.name)
        · by_cases h5 : toCamelCase (sourceTable ++ "_" ++ stripIdSuffix fkColumn) ∈
              model.fields.map (fun f => f.name)
          · have hr := eu_stage6 baseName model fkColumn sourceTable h1 h2 h3 h4 h5
            obtain ⟨j, hj, heq, hfree, hmin⟩ := suffixLoop_spec
              (toCamelCase (sourceTable ++ "_" ++ stripIdSuffix fkColumn))
              (model.fields.map (fun f => f.name))
              ((model.fields.map (fun f => f.name)).length + 1) 2
              (exists_free_candidate _ _ 2)
            refine ⟨by rw [hr, heq]; exact hfree, fun hn => absurd h1 hn,
              fun _ hne hnm => absurd (And.intro hne hnm) h2,
              fun _ _ hws => absurd h3 hws,
              fun _ _ _ hfc => absurd h4 hfc,
              fun _ _ _ _ hlr => absurd h5 hlr, ?_⟩
            intro _ _ _ _ _
            refine ⟨2 + j, by omega, by rw [hr]; exact heq, ?_⟩
            intro j2 h2le hlt
            have hmem := hmin (j2 - 2) (by omega)
            have harith : 2 + (j2 - 2) = j2 := by omega
            rwa [harith] at hmem
          · have hr := eu_stage5 baseName model fkColumn sourceTable h1 h2 h3 h4 h5
            exact ⟨by rw [hr]; exact h5, fun hn => absurd h1 hn,
              fun _ hne hnm => absurd (And.intro hne hnm) h2,
              fun _ _ hws => absurd h3 hws,
              fun _ _ _ hfc => absurd h4 hfc,
              fun _ _ _ _ _ => hr,
              fun _ _ _ _ hlr => absurd hlr h5⟩
        · have hr := eu_stage4 baseName model fkColumn sourceTable h1 h2 h3 h4
          exact ⟨by rw [hr]; exact h4, fun hn => absurd h1 hn,
            fun _ hne hnm => absurd (And.intro hne hnm) h2,
            fun _ _ hws => absurd h3 hws,
            fun _ _ _ _ => hr,
            fun _ _ _ hfc _ => absurd hfc h4,
            fun _ _ _ hfc _ => absurd hfc h4⟩
      · have hr := eu_stage3 baseName model fkColumn sourceTable h1 h2 h3
        exact ⟨by rw [hr]; exact h3, fun hn => absurd h1 hn,
          fun _ hne hnm => absurd (And.intro hne hnm) h2,
          fun _ _ _ => hr,
          fun _ _ hws _ => absurd hws h3,
          fun _ _ hws _ _ => absurd hws h3,
          fun _ _ hws _ _ => absurd hws h3⟩
  · have hr := eu_stage1 baseName model fkColumn sourceTable h1
    exact ⟨by rw [hr]; exact h1, fun _ => hr,
      fun hb => absurd hb h1,
      fun hb => absurd hb h1,
      fun hb => absurd hb h1,
      fun hb => absurd hb h1,
      fun hb => absurd hb h1⟩

/-- C3 witness: stage 2 of the cascade at a concrete model: the base name
    `author` collides, and the stripped full context `authorUser` is free. -/
theorem C3_ensureUniqueFieldName_witness :
    ensureUniqueFieldName "author"
      { name := "User",
        fields := [{ name := "author", type := "Post", attributes := [],
                     isOptional := false, isArray := true }],
        attributes := [] }
      "author_user_id" "posts" = "authorUser" :=
  (C3_ensureUniqueFieldName "author"
    { name := "User",
      fields := [{ name := "author", type := "Post", attributes := [],
                   isOptional := false, isArray := true }],
      attributes := [] }
    "author_user_id" "posts").2.2.1 (by decide) (by decide) (by decide)

theorem ne_updatedAt_of_default (x : String) : ("@default(" ++ x) ≠ "@updatedAt" := by
  intro h
  have hdata := congrArg String.data h
  rw [data_append_str] at hdata
  have hd : ("@default(" : String).data =
      ['@', 'd', 'e', 'f', 'a', 'u', 'l', 't', '('] := rfl
  rw [hd] at hdata
  have hu : ("@updatedAt" : String).data =
      ['@', 'u', 'p', 'd', 'a', 't', 'e', 'd', 'A', 't'] := rfl
  rw [hu] at hdata
  simp at hdata

theorem ne_updatedAt_of_map (x : String) : ("@map(\"" ++ x) ≠ "@updatedAt" := by
  intro h
  have hdata := congrArg String.data h
  rw [data_append_str] at hdata
  have hd : ("@map(\"" : String).data = ['@', 'm', 'a', 'p', '(', '"'] := rfl
  rw [hd] at hdata
  have hu : ("@updatedAt" : String).data =
      ['@', 'u', 'p', 'd', 'a', 't', 'e', 'd', 'A', 't'] := rfl
  rw [hu] at hdata
  simp at hdata

theorem updatedAt_not_mem_pkAttrs (c : SQLColumn) : "@updatedAt" ∉ pkAttrs c := by
  unfold pkAttrs
  split_ifs <;> simp_all <;> decide

theorem updatedAt_not_mem_uniqueAttrs (c : SQLColumn) : "@updatedAt" ∉ uniqueAttrs c := by
  unfold uniqueAttrs
  split_ifs <;> simp <;> decide

theorem updatedAt_not_mem_defaultAttrs (c : SQLColumn) :
    "@updatedAt" ∉ defaultAttrs c := by
  unfold defaultAttrs
  cases hdv : c.defaultValue with
  | none => simp
  | some dv =>
    simp only []
    split_ifs <;> simp only [List.mem_singleton, List.not_mem_nil, not_false_iff]
    all_goals intro h
    · exact absurd h (by decide)
    · exact ne_updatedAt_of_default "dbgenerated(\"gen_random_uuid()\"))" h.symm
    · exact ne_updatedAt_of_default (dv ++ ")") h.symm
    · exact ne_updatedAt_of_default (dv ++ ")") h.symm
    · exact absurd h (by decide)
    · exact ne_updatedAt_of_default ("dbgenerated(\"" ++ stripOuterParens dv ++ "\"))")
        h.symm
    · exact ne_updatedAt_of_default ("\"" ++ dv ++ "\")") h.symm

theorem updatedAt_not_mem_mapAttrs (c : SQLColumn) : "@updatedAt" ∉ mapAttrs c := by
  unfold mapAttrs
  split_ifs <;> simp only [List.mem_singleton, List.not_mem_nil, not_false_iff]
  intro h
  exact ne_updatedAt_of_map (c.name ++ "\")") h.symm

theorem updatedAt_not_mem_dbAttrs (c : SQLColumn) : "@updatedAt" ∉ dbAttrs c := by
  unfold dbAttrs
  split_ifs <;> simp <;> decide

/-- C10: the emitted scalar field carries `@updatedAt` exactly when the
    column's SQL type contains `TIMESTAMP` and its lower-cased name contains
    `updated`; no other attribute rule ever emits `@updatedAt`.  (This holds
    for all columns; in particular for non-primary-key columns as claimed.) -/
theorem C10_updatedAt_attribute (column : SQLColumn) (enums : List PrismaEnum) :
    "@updatedAt" ∈ (convertColumnToField column enums).attributes ↔
      (includesStr column.type "TIMESTAMP" = true ∧
        includesStr (lowerStr column.name) "updated" = true) := by
  simp only [convertColumnToField, List.mem_append]
  constructor
  · rintro (((((hpk | hu) | hd) | hup) | hm) | hdb)
    · exact absurd hpk (updatedAt_not_mem_pkAttrs column)
    · exact absurd hu (updatedAt_not_mem_uniqueAttrs column)
    · exact absurd hd (updatedAt_not_mem_defaultAttrs column)
    · unfold updatedAtAttrs at hup
      split_ifs at hup with hc
      · simp at hc
        exact hc
      · simp at hup
    · exact absurd hm (updatedAt_not_mem_mapAttrs column)
    · exact absurd hdb (updatedAt_not_mem_dbAttrs column)
  · intro hc
    have : "@updatedAt" ∈ updatedAtAttrs column := by
      unfold updatedAtAttrs
      rw [if_pos (by simp [hc.1, hc.2])]
      simp
    tauto

theorem isRelationOptional_iff (c : SQLConstraint) (table : SQLTable)
    (hnodup : (table.columns.map (fun col => col.name)).Nodup) :
    isRelationOptional c table = true ↔
      ∃ colName ∈ c.columns, ∃ sc ∈ table.columns,
        sc.name = colName ∧ sc.nullable = true := by
  unfold isRelationOptional
  rw [List.any_eq_true]
  constructor
  · rintro ⟨colName, hmem, hval⟩
    refine ⟨colName, hmem, ?_⟩
    cases hfind : table.columns.find? (fun col => col.name == colName) with
    | none => rw [hfind] at hval; simp at hval
    | some col =>
      rw [hfind] at hval
      simp only [] at hval
      have hp := List.find?_some hfind
      simp only [beq_iff_eq] at hp
      exact ⟨col, List.mem_of_find?_eq_some hfind, hp, hval⟩
  · rintro ⟨colName, hmem, sc, hscmem, hname, hnul⟩
    refine ⟨colName, hmem, ?_⟩
    have hsome : (table.columns.find? (fun col => col.name == colName)).isSome = true := by
      rw [List.find?_isSome]
      exact ⟨sc, hscmem, by simp [hname]⟩
    cases hfind : table.columns.find? (fun col => col.name == colName) with
    | none => rw [hfind] at hsome; simp at hsome
    | some col =>
      have hp := List.find?_some hfind
      simp only [beq_iff_eq] at hp
      have hcolmem := List.mem_of_find?_eq_some hfind
      have : col = sc := by
        have hinj := List.inj_on_of_nodup_map hnodup
        exact hinj hcolmem hscmem (by rw [hp, hname])
      show col.nullable = true
      rw [this]
      exact hnul

/-- C5: for every table and foreign-key constraint (with referenced table and
    columns present and a nonempty owning column list, under the parse
    invariant that column names are unique within a table), the generated
    forward relation field exists and is optional iff at least one of the
    constraint's owning-side columns is nullable on that table. -/
theorem C5_forward_relation_optionality (c : SQLConstraint) (table : SQLTable)
    (relationName : String) (model : PrismaModel) (namingColumn : String)
    (rt : String) (rcs : List String)
    (h1 : c.referencedTable = some rt) (h2 : c.referencedColumns = some rcs)
    (h3 : c.columns ≠ [])
    (hnodup : (table.columns.map (fun col => col.name)).Nodup) :
    ∃ f, createRelationField c table relationName model namingColumn = some f ∧
      (f.isOptional = true ↔ ∃ colName ∈ c.columns, ∃ sc ∈ table.columns,
        sc.name = colName ∧ sc.nullable = true) := by
  unfold createRelationField
  rw [h1, h2]
  simp only [List.isEmpty_eq_true]
  rw [if_neg h3]
  exact ⟨_, rfl, isRelationOptional_iff c table hnodup⟩

/-- C5 witness: a concrete nullable single-column foreign key produces an
    optional forward field. -/
theorem C5_forward_relation_optionality_witness :
    ∃ f, createRelationField egAuthorFK egPostsTable "PostsToUsers_Author"
        egPostsModel "author_id" = some f ∧
      (f.isOptional = true ↔ ∃ colName ∈ egAuthorFK.columns,
        ∃ sc ∈ egPostsTable.columns, sc.name = colName ∧ sc.nullable = true) :=
  C5_forward_relation_optionality egAuthorFK egPostsTable "PostsToUsers_Author"
    egPostsModel "author_id" "users" ["id"] rfl rfl (by decide) (by decide)

/-- C1: evaluating the generator on the scenario.  The three relation
    identifiers are distinct with contexts `Author`, `Editor`, `Reviewer`, the
    forward fields are `author`, `editor`, `reviewer`, and no name carries a
    numeric suffix — but the backward collection fields on the users model are
    `postsAuthor`, `postsEditor`, `postsReviewer`, not the `postsAsAuthor`,
    `postsAsEditor`, `postsAsReviewer` that the claim (and the repository's
    own RELATION_NAMING.md, which shows this very schema) requires. -/
theorem C1_three_fk_scenario :
    c1Models.map (fun m => m.name) = ["Users", "Posts"]
    ∧ ((c1Models.getD 1 egPostsModel).fields.filter
        (fun f => isRelationField f)).map (fun f => (f.name, f.type, f.attributes)) =
      [("author", "Users",
        ["@relation(\"PostsToUsers_Author\", fields: [authorId], references: [id])"]),
       ("editor", "Users",
        ["@relation(\"PostsToUsers_Editor\", fields: [editorId], references: [id])"]),
       ("reviewer", "Users",
        ["@relation(\"PostsToUsers_Reviewer\", fields: [reviewerId], references: [id])"])]
    ∧ ((c1Models.getD 0 egPostsModel).fields.filter
        (fun f => isRelationField f)).map (fun f => (f.name, f.type, f.attributes)) =
      [("postsAuthor", "Posts", ["@relation(\"PostsToUsers_Author\")"]),
       ("postsEditor", "Posts", ["@relation(\"PostsToUsers_Editor\")"]),
       ("postsReviewer", "Posts", ["@relation(\"PostsToUsers_Reviewer\")"])]
    ∧ ((c1Models.getD 0 egPostsModel).fields.map (fun f => f.name) ≠
        ["id", "postsAsAuthor", "postsAsEditor", "postsAsReviewer"]) := by
  refine ⟨rfl, rfl, rfl, ?_⟩
  decide

/-- C8 counterexample: `post` and `posts` have no foreign key between each
    other (both reference `users`), yet swapping their declaration order
    changes the `Users` model's field set: the collection field `postsAuthor`
    has type `Post` in one order and `Posts` in the other (their backward
    base names collide on `Users`, and the cascade resolves the collision in
    processing order). -/
theorem C8_counterexample_order_dependence :
    c8ModelsA.map (fun m => m.name) = ["Users", "Post", "Posts"]
    ∧ c8ModelsB.map (fun m => m.name) = ["Users", "Posts", "Post"]
    ∧ (c8ModelsA.getD 0 egPostsModel).name = "Users"
    ∧ (c8ModelsB.getD 0 egPostsModel).name = "Users"
    ∧ ("postsAuthor", "Post") ∈
        (c8ModelsA.getD 0 egPostsModel).fields.map (fun f => (f.name, f.type))
    ∧ ("postsAuthor", "Post") ∉
        (c8ModelsB.getD 0 egPostsModel).fields.map (fun f => (f.name, f.type)) := by
  refine ⟨rfl, rfl, rfl, rfl, ?_, ?_⟩
  · decide
  · decide

theorem includesAux_of_isPrefixOf (p l : List Char) (h : p.isPrefixOf l = true) :
    includesAux p l = true := by
  cases l with
  | nil =>
    cases p with
    | nil => rfl
    | cons c t => simp [List.isPrefixOf] at h
  | cons c t =>
    unfold includesAux
    rw [h]
    rfl

theorem includesStr_relation_prefixed (x : String) :
    includesStr ("@relation(\"" ++ x) "@relation" = true := by
  show includesAux ("@relation" : String).data ("@relation(\"" ++ x).data = true
  apply includesAux_of_isPrefixOf
  rw [List.isPrefixOf_iff_prefix, data_append_str]
  exact ⟨'(' :: '"' :: x.data, rfl⟩

theorem createRelationField_isRel (c : SQLConstraint) (table : SQLTable)
    (relationName : String) (model : PrismaModel) (namingColumn : String)
    (f : PrismaField)
    (h : createRelationField c table relationName model namingColumn = some f) :
    isRelationField f = true := by
  unfold createRelationField at h
  cases h1 : c.referencedTable with
  | none => rw [h1] at h; simp at h
  | some rt =>
    cases h2 : c.referencedColumns with
    | none => rw [h1, h2] at h; simp at h
    | some rcs =>
      rw [h1, h2] at h
      simp only [] at h
      by_cases he : c.columns.isEmpty = true
      · rw [if_pos he] at h
        simp at h
      · rw [if_neg he] at h
        injection h with h
        subst h
        unfold isRelationField
        simp only [List.any_cons, List.any_nil, Bool.or_false]
        exact includesStr_relation_prefixed _

theorem createBackRelationField_isRel (c : SQLConstraint) (table : SQLTable)
    (relationName : String) (referencedModel : PrismaModel) (namingColumn : String)
    (f : PrismaField)
    (h : createBackRelationField c table relationName referencedModel namingColumn =
      some f) :
    isRelationField f = true := by
  unfold createBackRelationField at h
  cases h1 : c.referencedTable with
  | none => rw [h1] at h; simp at h
  | some rt =>
    rw [h1] at h
    simp only [] at h
    by_cases he : c.columns.isEmpty = true
    · rw [if_pos he] at h
      simp at h
    · rw [if_neg he] at h
      injection h with h
      subst h
      unfold isRelationField
      simp only [List.any_cons, List.any_nil, Bool.or_false]
      exact includesStr_relation_prefixed _

theorem modelsInv_refl (base : List PrismaModel) : modelsInv base base := by
  refine ⟨rfl, ?_⟩
  intro i mb m h1 h2
  rw [h1] at h2
  injection h2 with h2
  subst h2
  exact ⟨rfl, [], by simp, by simp⟩

theorem modelsInv_appendFieldAt (base ms : List PrismaModel) (k : Nat)
    (f : PrismaField) (h : modelsInv base ms) (hf : isRelationField f = true) :
    modelsInv base (appendFieldAt ms k f) := by
  unfold appendFieldAt
  cases hk : ms[k]? with
  | none => exact h
  | some mk =>
    have hklt : k < ms.length := by
      rw [List.getElem?_eq_some] at hk
      exact hk.1
    refine ⟨by rw [List.length_set]; exact h.1, ?_⟩
    intro i mb m h1 h2
    by_cases hik : i = k
    · subst hik
      rw [List.getElem?_set_eq hklt] at h2
      injection h2 with h2
      subst h2
      obtain ⟨hname, suf, hfields, hsuf⟩ := h.2 i mb mk h1 hk
      refine ⟨hname, suf ++ [f], ?_, ?_⟩
      · simp only [hfields, List.append_assoc]
      · intro g hg
        rw [List.mem_append] at hg
        cases hg with
        | inl hg2 => exact hsuf g hg2
        | inr hg2 =>
          simp at hg2
          subst hg2
          exact hf
    · rw [List.getElem?_set_ne (fun he => hik he.symm)] at h2
      exact h.2 i mb m h1 h2

theorem modelsInv_pushForward (base : List PrismaModel) (c : SQLConstraint)
    (table : SQLTable) (relationName namingColumn : String)
    (ms : List PrismaModel) (h : modelsInv base ms) :
    modelsInv base (pushForward c table relationName namingColumn ms) := by
  unfold pushForward
  cases hfi : findIdxByName ms (toPascalCase table.name) with
  | none => exact h
  | some i =>
    show modelsInv base (match ms[i]? with
      | some m =>
        match createRelationField c table relationName m namingColumn with
        | some f => appendFieldAt ms i f
        | none => ms
      | none => ms)
    cases hmi : ms[i]? with
    | none => exact h
    | some m =>
      show modelsInv base
        (match createRelationField c table relationName m namingColumn with
        | some f => appendFieldAt ms i f
        | none => ms)
      cases hcr : createRelationField c table relationName m namingColumn with
      | none => exact h
      | some f =>
        exact modelsInv_appendFieldAt base ms i f h
          (createRelationField_isRel _ _ _ _ _ _ hcr)

theorem modelsInv_pushBackward (base : List PrismaModel) (c : SQLConstraint)
    (table : SQLTable) (relationName refT namingColumn : String)
    (ms : List PrismaModel) (h : modelsInv base ms) :
    modelsInv base (pushBackward c table relationName refT namingColumn ms) := by
  unfold pushBackward
  cases hfj : findIdxByName ms (toPascalCase refT) with
  | none => exact h
  | some j =>
    show modelsInv base (match ms[j]? with
      | some m2 =>
        match createBackRelationField c table relationName m2 namingColumn with
        | some f => appendFieldAt ms j f
        | none => ms
      | none => ms)
    cases hmj : ms[j]? with
    | none => exact h
    | some m2 =>
      show modelsInv base
        (match createBackRelationField c table relationName m2 namingColumn with
        | some f => appendFieldAt ms j f
        | none => ms)
      cases hcb : createBackRelationField c table relationName m2 namingColumn with
      | none => exact h
      | some f =>
        exact modelsInv_appendFieldAt base ms j f h
          (createBackRelationField_isRel _ _ _ _ _ _ hcb)

theorem modelsInv_processConstraint (base : List PrismaModel) (table : SQLTable)
    (st : List PrismaModel × List String) (c : SQLConstraint)
    (h : modelsInv base st.1) : modelsInv base (processConstraint table st c).1 := by
  unfold processConstraint
  cases htag : c.tag <;> cases href : c.referencedTable <;>
    first
      | exact h
      | exact modelsInv_pushBackward base c table _ _ _ _
          (modelsInv_pushForward base c table _ _ _ h)

theorem modelsInv_foldConstraints (base : List PrismaModel) (table : SQLTable) :
    ∀ (cs : List SQLConstraint) (st : List PrismaModel × List String),
    modelsInv base st.1 →
    modelsInv base (cs.foldl (processConstraint table) st).1 := by
  intro cs
  induction cs with
  | nil => intro st h; exact h
  | cons c rest ih =>
    intro st h
    exact ih (processConstraint table st c)
      (modelsInv_processConstraint base table st c h)

theorem modelsInv_foldTables (base : List PrismaModel) :
    ∀ (ts : List SQLTable) (st : List PrismaModel × List String),
    modelsInv base st.1 →
    modelsInv base
      (ts.foldl (fun st t => t.constraints.foldl (processConstraint t) st) st).1 := by
  intro ts
  induction ts with
  | nil => intro st h; exact h
  | cons t rest ih =>
    intro st h
    exact ih _ (modelsInv_foldConstraints base t t.constraints st h)

theorem convertTablesToModels_modelsInv (tables : List SQLTable)
    (enums : List PrismaEnum) :
    modelsInv (tables.map (fun t => createBasicModel t enums))
      (convertTablesToModels tables enums) := by
  unfold convertTablesToModels
  exact modelsInv_foldTables _ tables _ (modelsInv_refl _)

theorem scalarProjection_of_modelsInv (base ms : List PrismaModel)
    (h : modelsInv base ms) :
    ms.map scalarProjection = base.map scalarProjection := by
  apply List.ext_getElem?
  intro i
  rw [List.getElem?_map, List.getElem?_map]
  cases h1 : base[i]? with
  | none =>
    have h2 : ms[i]? = none := by
      rw [List.getElem?_eq_none_iff] at h1 ⊢
      rw [h.1]
      exact h1
    rw [h2]
  | some mb =>
    have hlen := h.1
    have hlt : i < ms.length := by
      rw [List.getElem?_eq_some] at h1
      obtain ⟨hw, _⟩ := h1
      omega
    have hm : ms[i]? = some (ms[i]) := List.getElem?_eq_getElem hlt
    rw [hm]
    obtain ⟨hname, suf, hfields, hsuf⟩ := h.2 i mb (ms[i]) h1 hm
    show some (scalarProjection (ms[i])) = some (scalarProjection mb)
    congr 1
    unfold scalarProjection
    rw [hname, hfields, List.filter_append]
    have hnil : suf.filter (fun f => !isRelationField f) = [] := by
      rw [List.filter_eq_nil_iff]
      intro f hfmem
      simp [hsuf f hfmem]
    rw [hnil, List.append_nil]

/-- The scalar projection of the generated model list is exactly the
    per-table basic-model projection, in table order. -/
theorem convertTablesToModels_scalarProjection (tables : List SQLTable)
    (enums : List PrismaEnum) :
    (convertTablesToModels tables enums).map scalarProjection =
      tables.map (fun t => scalarProjection (createBasicModel t enums)) := by
  rw [scalarProjection_of_modelsInv _ _ (convertTablesToModels_modelsInv tables enums)]
  rw [List.map_map]
  rfl

/-- C8 (amended): swapping two `CREATE TABLE` declarations leaves, for every
    model, the name and the set of scalar (non-relation) fields unchanged up
    to model enumeration order; generated relation fields, however, may change
    name or type when the two tables' backward names collide on a shared third
    model, as the uniqueness cascade depends on processing order. -/
theorem C8_amended_scalar_fields_order_invariant
    (pre mid post : List SQLTable) (a b : SQLTable) (enums : List PrismaEnum) :
    List.Perm
      ((convertTablesToModels (pre ++ a :: (mid ++ b :: post)) enums).map
        scalarProjection)
      ((convertTablesToModels (pre ++ b :: (mid ++ a :: post)) enums).map
        scalarProjection) := by
  rw [convertTablesToModels_scalarProjection, convertTablesToModels_scalarProjection]
  apply List.Perm.map
  apply List.Perm.append_left
  exact ((List.Perm.cons a List.perm_middle).trans
    (List.Perm.swap b a (mid ++ post))).trans
    (List.Perm.cons b List.perm_middle.symm)

theorem splitOnChar_ne_nil (sep : Char) (l : List Char) :
    splitOnChar sep l ≠ [] := by
  induction l with
  | nil => simp [splitOnChar]
  | cons c t ih =>
    unfold splitOnChar
    cases hsp : splitOnChar sep t with
    | nil => exact absurd hsp ih
    | cons h rest =>
      show (if c = sep then [] :: h :: rest else (c :: h) :: rest) ≠ []
      by_cases hc : c = sep
      · rw [if_pos hc]
        simp
      · rw [if_neg hc]
        simp

theorem splitOnChar_props (sep : Char) :
    ∀ (l : List Char), ∀ p ∈ splitOnChar sep l, sep ∉ p ∧ ∀ c ∈ p, c ∈ l := by
  intro l
  induction l with
  | nil =>
    intro p hp
    simp [splitOnChar] at hp
    subst hp
    simp
  | cons c t ih =>
    intro p hp
    unfold splitOnChar at hp
    cases hsp : splitOnChar sep t with
    | nil => exact absurd hsp (splitOnChar_ne_nil sep t)
    | cons h rest =>
      rw [hsp] at hp
      replace hp : p ∈ (if c = sep then [] :: h :: rest else (c :: h) :: rest) := hp
      by_cases hc : c = sep
      · rw [if_pos hc] at hp
        rcases List.mem_cons.mp hp with hp1 | hp2
        · subst hp1
          simp
        · have := ih p (by rw [hsp]; exact hp2)
          exact ⟨this.1, fun c2 hc2 => List.mem_cons_of_mem c (this.2 c2 hc2)⟩
      · rw [if_neg hc] at hp
        rcases List.mem_cons.mp hp with hp1 | hp2
        · subst hp1
          have hh := ih h (by rw [hsp]; exact List.mem_cons_self h rest)
          constructor
          · intro hs
            rcases List.mem_cons.mp hs with hs1 | hs2
            · exact hc hs1.symm
            · exact hh.1 hs2
          · intro c2 hc2
            rcases List.mem_cons.mp hc2 with hc21 | hc22
            · subst hc21
              exact List.mem_cons_self c2 t
            · exact List.mem_cons_of_mem c (hh.2 c2 hc22)
        · have := ih p (by rw [hsp]; exact List.mem_cons_of_mem h hp2)
          exact ⟨this.1, fun c2 hc2 => List.mem_cons_of_mem c (this.2 c2 hc2)⟩

theorem trimStr_data_eq_nil (l : List Char) (h : ∀ c ∈ l, isSpaceChar c = true) :
    (trimStr ⟨l⟩).data = [] := by
  show (((l.dropWhile isSpaceChar).reverse.dropWhile isSpaceChar).reverse) = []
  have h1 : l.dropWhile isSpaceChar = [] := by
    rw [List.dropWhile_eq_nil_iff]
    exact h
  rw [h1]
  rfl

/-- C7 (amended): the segmenter removes line and block comments, never
    fails, splits at EVERY semicolon — including semicolons inside quoted
    string literals — so no produced statement contains a semicolon and every
    produced statement is nonblank; and an input whose cleaned text holds
    only spaces and semicolons yields the empty statement list. -/
theorem C7_segmenter (s : String) :
    (∀ st ∈ sqlStatements s, ';' ∉ st.data ∧ (trimStr st).data ≠ [])
    ∧ ((∀ c ∈ (cleanSQL s).data, c = ' ' ∨ c = ';') → sqlStatements s = []) := by
  constructor
  · intro st hst
    unfold sqlStatements at hst
    rw [List.mem_filter] at hst
    obtain ⟨hmem, hpred⟩ := hst
    rw [List.mem_map] at hmem
    obtain ⟨p, hp, heq⟩ := hmem
    subst heq
    refine ⟨(splitOnChar_props ';' (cleanSQL s).data p hp).1, ?_⟩
    simpa using hpred
  · intro hall
    unfold sqlStatements
    rw [List.filter_eq_nil_iff]
    intro st hmem
    rw [List.mem_map] at hmem
    obtain ⟨p, hp, heq⟩ := hmem
    subst heq
    have hprops := splitOnChar_props ';' (cleanSQL s).data p hp
    have hspace : ∀ c ∈ p, isSpaceChar c = true := by
      intro c hcp
      rcases hall c (hprops.2 c hcp) with h1 | h1
      · simp [h1, isSpaceChar]
      · exact absurd (h1 ▸ hcp) hprops.1
    simp [trimStr_data_eq_nil p hspace]

/-- C7 counterexample: the claim says splitting happens only at semicolons
    outside quoted string literals, so this input is one statement; the code
    splits at the semicolon inside the literal, producing two pieces. -/
theorem C7_counterexample_quoted_semicolon :
    sqlStatements c7Input =
      ["COMMENT ON TABLE t IS " ++ ⟨[squote, 'a']⟩, ⟨['b', squote]⟩]
    ∧ sqlStatements c7Input ≠ [c7Input] := by
  constructor
  · decide
  · decide

/-- C7 witness: the amended segmenter contract at concrete inputs. -/
theorem C7_segmenter_witness :
    (';' ∉ ("CREATE TABLE a (x INT)" : String).data ∧
      (trimStr "CREATE TABLE a (x INT)").data ≠ []) ∧
    sqlStatements "-- just a comment\n/* and a block */  ; ;  " = [] := by
  constructor
  · exact (C7_segmenter "CREATE TABLE a (x INT); CREATE TABLE b (y INT);").1
      "CREATE TABLE a (x INT)" (by decide)
  · exact (C7_segmenter "-- just a comment\n/* and a block */  ; ;  ").2 (by decide)

theorem addFKToFirst_not_found (ts : List SQLTable) (nm : String)
    (k : SQLConstraint) (h : ∀ t ∈ ts, t.name ≠ nm) :
    addFKToFirst ts nm k = ts := by
  induction ts with
  | nil => rfl
  | cons t rest ih =>
    unfold addFKToFirst
    rw [if_neg (h t (List.mem_cons_self t rest))]
    rw [ih (fun t2 ht2 => h t2 (List.mem_cons_of_mem t ht2))]

theorem addFKToFirst_found (nm : String) (k : SQLConstraint) :
    ∀ (pre : List SQLTable) (t : SQLTable) (post : List SQLTable),
    (∀ t2 ∈ pre, t2.name ≠ nm) → t.name = nm →
    addFKToFirst (pre ++ t :: post) nm k =
      pre ++ { t with constraints := t.constraints ++ [k] } :: post := by
  intro pre
  induction pre with
  | nil =>
    intro t post _ ht
    unfold addFKToFirst
    rw [List.nil_append, List.nil_append]
    show (if t.name = nm then _ else _) = _
    rw [if_pos ht]
  | cons p rest ih =>
    intro t post hpre ht
    rw [List.cons_append]
    unfold addFKToFirst
    rw [if_neg (hpre p (List.mem_cons_self p rest))]
    rw [ih t post (fun t2 ht2 => hpre t2 (List.mem_cons_of_mem p ht2)) ht,
      List.cons_append]

/-- C6: for every recognized `ALTER TABLE ... ADD FOREIGN KEY` statement,
    the resulting constraint is appended to the constraint list of the first
    table named in the ALTER clause — every other table, including the
    referenced one, is unchanged — and when no table with that name exists the
    statement changes nothing and parsing completes (the function is total). -/
theorem C6_alter_table_fk (s : String) (tables : List SQLTable)
    (a colName rt rc : String)
    (h : matchAlterFK s.data = some (a, colName, rt, rc)) :
    ((∀ t ∈ tables, t.name ≠ a) → parseAlterTableForeignKey s tables = tables)
    ∧ (∀ pre t post, tables = pre ++ t :: post → t.name = a →
        (∀ t2 ∈ pre, t2.name ≠ a) →
        parseAlterTableForeignKey s tables =
          pre ++ { t with constraints := t.constraints ++
            [{ tag := ConstraintTag.foreignKey, columns := [colName],
               referencedTable := some rt,
               referencedColumns := some [rc] }] } :: post) := by
  constructor
  · intro hnone
    unfold parseAlterTableForeignKey
    rw [h]
    exact addFKToFirst_not_found tables a _ hnone
  · intro pre t post hdecomp ht hpre
    unfold parseAlterTableForeignKey
    rw [h, hdecomp]
    exact addFKToFirst_found a _ pre t post hpre ht

/-- C6 witness: a concrete ALTER statement attaches the constraint to
    `posts` (the altered table), leaves `users` untouched, and a dangling
    ALTER leaves the table list unchanged. -/
theorem C6_alter_table_fk_witness :
    parseAlterTableForeignKey
      "ALTER TABLE posts ADD FOREIGN KEY (author_id) REFERENCES users (id)"
      [c1Users, egPostsBare] =
      [c1Users, { egPostsBare with constraints := egPostsBare.constraints ++
        [{ tag := ConstraintTag.foreignKey, columns := ["author_id"],
           referencedTable := some "users",
           referencedColumns := some ["id"] }] }]
    ∧ parseAlterTableForeignKey
      "ALTER TABLE missing ADD FOREIGN KEY (a) REFERENCES users (id)"
      [c1Users, egPostsBare] = [c1Users, egPostsBare] := by
  constructor
  · exact (C6_alter_table_fk
      "ALTER TABLE posts ADD FOREIGN KEY (author_id) REFERENCES users (id)"
      [c1Users, egPostsBare] "posts" "author_id" "users" "id" (by decide)).2
      [c1Users] egPostsBare [] rfl rfl (by decide)
  · exact (C6_alter_table_fk
      "ALTER TABLE missing ADD FOREIGN KEY (a) REFERENCES users (id)"
      [c1Users, egPostsBare] "missing" "a" "users" "id" (by decide)).1 (by decide)
